import Mathlib

/-!
Verification development for the release-check crawler core.

The TypeScript sources are shallowly embedded:
* `src/lib/url-normalizer.ts` (`canonicalizeUrl`, `shouldCrawlUrl`) as pure
  functions over character lists;
* `src/lib/sitemap-parser.ts` (`parseSitemap`) as a recursive function over a
  fetch oracle;
* the three `crawlWebsite` variants (the browser crawler and the multi-source
  HTTP crawler in `src/lib/crawler-browser.ts`, and the sitemap-first crawler
  of `src/unnamed/part_001`) as deterministic state transformers over oracles
  for network effects.

Modelling assumptions for the WHATWG `URL` parser (`new URL(...)`): the
embedding covers http/https URLs whose host is an ASCII domain (lower-case
letters, digits, `.`, `-`, `_` after case folding) and whose path contains no
characters the browser parser would percent-encode or rewrite (no whitespace,
no `\`, no `<`, `>`, `"`, braces or backquote, ASCII only) and no path segment
starting with a dot (so no `.`/`..` resolution occurs).  Inputs outside this
domain make the embedded parser return `none`; all concrete inputs appearing
in the claims lie inside the domain, and on the domain the embedded parser
agrees with the browser parser.
-/

/-- JavaScript-style whitespace test used by `String.prototype.trim`
(restricted to the ASCII whitespace characters). -/
def isWsChar (c : Char) : Bool :=
  c = ' ' || c = '\t' || c = '\n' || c = '\r' || c = '\x0b' || c = '\x0c'

/-- `String.prototype.toLowerCase` on a character list (ASCII case folding,
matching `Char.toLower`). -/
def toLowerChars (l : List Char) : List Char := l.map Char.toLower

/-- `String.prototype.trim`: strip leading and trailing whitespace. -/
def trimChars (l : List Char) : List Char :=
  ((l.dropWhile isWsChar).reverse.dropWhile isWsChar).reverse

/-- `hostname.replace(/^www\./, "")`: drop one leading `www.` if present. -/
def stripWww (h : List Char) : List Char :=
  if "www.".toList.isPrefixOf h then h.drop 4 else h

/-- Scanner for an occurrence of two adjacent slashes. -/
def hasDoubleSlash : List Char → Bool
  | [] => false
  | [_] => false
  | c :: d :: rest => (c = '/' && d = '/') || hasDoubleSlash (d :: rest)

/-- Scanner for a slash immediately followed by a dot.  The embedded parser
rejects such paths (see the modelling assumptions above): this excludes the
`.`/`..` segments that the browser parser would resolve away. -/
def hasSlashDot : List Char → Bool
  | [] => false
  | [_] => false
  | c :: d :: rest => (c = '/' && d = '.') || hasSlashDot (d :: rest)

/-- Helper for `collapseSlashes`: the flag records whether the previous kept
character was a slash. -/
def collapseSlashesAux : Bool → List Char → List Char
  | _, [] => []
  | prevSlash, c :: rest =>
    if c = '/' then
      if prevSlash then collapseSlashesAux true rest
      else '/' :: collapseSlashesAux true rest
    else c :: collapseSlashesAux false rest

/-- `pathname.replace(/\/+/g, "/")`: collapse runs of slashes. -/
def collapseSlashes (l : List Char) : List Char := collapseSlashesAux false l

/-- The index-document suffixes recognized by `canonicalizeUrl`'s
`indexPatterns` (each case-insensitive regex expanded; the `?`-optional final
letters give two entries per pattern, in source order). -/
def indexSuffixes : List String :=
  ["/index.html", "/index.htm", "/index.php", "/index.aspx", "/index.asp",
   "/index.jsp", "/index.cgi", "/default.html", "/default.htm", "/default.php",
   "/default.aspx", "/default.asp"]

/-- The first index-document suffix matching the path (case-insensitively),
mirroring the `for`-loop over `indexPatterns` with its `break`. -/
def findIndexSuffix (p : List Char) : Option (List Char) :=
  (indexSuffixes.map String.toList).find? (fun suf => suf.isSuffixOf (toLowerChars p))

/-- `pathname.replace(pattern, "/")` for the first matching index pattern. -/
def collapseIndexFile (p : List Char) : List Char :=
  match findIndexSuffix p with
  | none => p
  | some suf => p.take (p.length - suf.length) ++ ['/']

/-- Remove a trailing slash except at the root. -/
def stripTrailingSlash (p : List Char) : List Char :=
  if p ≠ ['/'] && p.getLast? = some '/' then p.dropLast else p

/-- The whole pathname normalization block of `canonicalizeUrl`
(collapse slashes, collapse index documents, strip the trailing slash,
default to `/`). -/
def canonPath (p : List Char) : List Char :=
  let p1 := collapseSlashes p
  let p2 := collapseIndexFile p1
  let p3 := stripTrailingSlash p2
  if p3 = [] then ['/'] else p3

/-- Characters accepted in a host by the embedded parser: the ASCII domain
characters on which the browser parser is the identity (after case folding). -/
def isHostChar (c : Char) : Bool :=
  (97 ≤ c.toNat && c.toNat ≤ 122) || (48 ≤ c.toNat && c.toNat ≤ 57) ||
  c = '.' || c = '-' || c = '_'

/-- Characters accepted in a path by the embedded parser: ASCII characters the
browser parser neither percent-encodes nor rewrites. -/
def isPathChar (c : Char) : Bool :=
  32 < c.toNat && c.toNat < 127 && c ≠ '#' && c ≠ '?' && c ≠ '\\' &&
  c ≠ '"' && c ≠ '<' && c ≠ '>' && c ≠ '\x60' && c ≠ '\x7b' && c ≠ '\x7d' && c ≠ '^' && c ≠ '|'

/-- Validity of a parsed pathname: slash-initial, acceptable characters, no
segment starting with a dot. -/
def validPath (p : List Char) : Bool :=
  p.headI = '/' && p ≠ [] && p.all isPathChar && !hasSlashDot p

/-- A parsed `URL` object, restricted to the components `canonicalizeUrl`
touches.  The fragment is absent (the code strips it before parsing and
clears `urlObj.hash` at the end) and `searchRaw` holds the text after `?`
(cleared by canonicalization). -/
structure UrlObj where
  https : Bool
  host : List Char
  port : Option Nat
  pathname : List Char
  searchRaw : List Char
deriving Repr, DecidableEq

/-- Fuelled helper for `natDigits` (structural recursion so that the kernel
can evaluate it). -/
def natDigitsAux : Nat → Nat → List Char
  | 0, _ => []
  | fuel + 1, n =>
    if n < 10 then [Char.ofNat (48 + n)]
    else natDigitsAux fuel (n / 10) ++ [Char.ofNat (48 + n % 10)]

/-- Decimal digits of a natural number, most significant first. -/
def natDigits (n : Nat) : List Char := natDigitsAux (n + 1) n

/-- Numeric value of a digit list (how the URL parser reads a port). -/
def digitsToNat (ds : List Char) : Nat :=
  ds.foldl (fun a c => 10 * a + (c.toNat - 48)) 0

/-- Port parsing: empty digit string means no port; out-of-range ports make
the URL invalid; a port equal to the scheme's default is dropped (WHATWG
parser behaviour, observable as `url.port === ""`). -/
def parsePort (https : Bool) (ds : List Char) : Option (Option Nat) :=
  if ds = [] then some none
  else
    let v := digitsToNat ds
    if v > 65535 then none
    else if (https && v = 443) || (!https && v = 80) then some none
    else some (some v)

/-- Split the part after the host at the first `?` into pathname and raw
query text. -/
def splitPathQuery (s : List Char) : List Char × List Char :=
  (s.takeWhile (fun c => c ≠ '?'), (s.dropWhile (fun c => c ≠ '?')).drop 1)

/-- Host terminator characters. -/
def isHostEnd (c : Char) : Bool :=
  c = '/' || c = ':' || c = '?' || c = '#'

/-- Parse scheme-stripped URL text `host[:port][/path][?query]` into a
`UrlObj` (the embedded `new URL` on an absolute http(s) URL). -/
def parseAfterScheme (https : Bool) (s : List Char) : Option UrlObj :=
  let hostRaw := s.takeWhile (fun c => !isHostEnd c)
  let rest := s.dropWhile (fun c => !isHostEnd c)
  let host := toLowerChars hostRaw
  if host = [] || !host.all isHostChar then none
  else
    match rest with
    | ':' :: r2 =>
      let ds := r2.takeWhile Char.isDigit
      let r3 := r2.dropWhile Char.isDigit
      match parsePort https ds with
      | none => none
      | some port =>
        match r3 with
        | [] => some ⟨https, host, port, ['/'], []⟩
        | '?' :: q => if q.all (fun c => c ≠ '#') then some ⟨https, host, port, ['/'], q⟩ else none
        | '/' :: _ =>
          let pq := splitPathQuery r3
          if validPath pq.1 && pq.2.all (fun c => c ≠ '#') then
            some ⟨https, host, port, pq.1, pq.2⟩
          else none
        | _ => none
    | '?' :: q => if q.all (fun c => c ≠ '#') then some ⟨https, host, none, ['/'], q⟩ else none
    | '/' :: _ =>
      let pq := splitPathQuery rest
      if validPath pq.1 && pq.2.all (fun c => c ≠ '#') then
        some ⟨https, host, none, pq.1, pq.2⟩
      else none
    | [] => some ⟨https, host, none, ['/'], []⟩
    | _ => none

/-- The embedded `new URL` on a string that must carry an explicit
`http://`/`https://` scheme. -/
def parseUrlString (s : List Char) : Option UrlObj :=
  if "https://".toList.isPrefixOf s then parseAfterScheme true (s.drop 8)
  else if "http://".toList.isPrefixOf s then parseAfterScheme false (s.drop 7)
  else none

/-- `url.href` serialization of a `UrlObj`. -/
def renderUrl (u : UrlObj) : List Char :=
  (if u.https then "https://".toList else "http://".toList) ++ u.host ++
  (match u.port with
   | none => []
   | some p => ':' :: natDigits p) ++
  u.pathname ++
  (if u.searchRaw = [] then [] else '?' :: u.searchRaw)

/-- The scheme text of the base URL (`options.baseUrl.protocol`). -/
def protoChars (u : UrlObj) : List Char :=
  if u.https then "https:".toList else "http:".toList

/-- The `www` policy block of `canonicalizeUrl`: when the hostname matches
the base hostname ignoring a leading `www.`, rewrite it to follow the base
hostname's `www` usage; different hosts (other subdomains) stay untouched. -/
def applyWwwPolicy (baseHost h : List Char) : List Char :=
  let bh := toLowerChars baseHost
  let uh := toLowerChars h
  if stripWww bh = stripWww uh then
    if "www.".toList.isPrefixOf bh then
      if "www.".toList.isPrefixOf uh then h
      else "www.".toList ++ stripWww uh
    else
      if "www.".toList.isPrefixOf uh then stripWww uh else h
  else h

/-- The object-mutation part of `canonicalizeUrl` (everything after the URL
has been obtained): force https, drop default ports, apply the base host's
`www` policy, normalize the pathname, clear search and hash, lower-case the
hostname. -/
def canonObj (o_baseHost : List Char) (o_forceHttps : Bool) (u : UrlObj) : UrlObj :=
  let u1 := if o_forceHttps && u.https = false then { u with https := true } else u
  let u2 :=
    if (u1.https = false && u1.port = some 80) || (u1.https = true && u1.port = some 443)
    then { u1 with port := none } else u1
  let u3 := { u2 with host := applyWwwPolicy o_baseHost u2.host }
  let u4 := { u3 with pathname := canonPath u3.pathname, searchRaw := [] }
  { u4 with host := toLowerChars u4.host }

/-- `NormalizeOptions` from `url-normalizer.ts`.  `removeWww` and
`preserveWww` are declared in the source interface but never read by
`canonicalizeUrl` or `shouldCrawlUrl`. -/
structure NormalizeOptions where
  baseUrl : UrlObj
  forceHttps : Bool := false
  removeWww : Bool := false
  preserveWww : Bool := false
deriving Repr

/-- The protocols rejected outright by `canonicalizeUrl`. -/
def badSchemes : List String :=
  ["mailto:", "tel:", "javascript:", "data:", "ftp:", "file:"]

/-- `url.replace(/^([a-z]+:)\/\/+/i, "$1//")`: collapse the run of slashes
after the scheme to exactly two. -/
def collapseProtoSlashes (s : List Char) : List Char :=
  let letters := s.takeWhile Char.isAlpha
  let rest := s.dropWhile Char.isAlpha
  match rest with
  | ':' :: r2 =>
    let slashes := r2.takeWhile (fun c => c = '/')
    if letters ≠ [] && slashes.length ≥ 2 then
      letters ++ [':', '/', '/'] ++ r2.dropWhile (fun c => c = '/')
    else s
  | _ => s

/-- The base-URL directory used for relative resolution: the base pathname up
to and including its last slash. -/
def dirOf (p : List Char) : List Char :=
  (p.reverse.dropWhile (fun c => c ≠ '/')).reverse

/-- The embedded `new URL(url, base)` for a reference that starts with a
single `/`: resolve against the base origin (scheme, host, port). -/
def resolveRootRelative (base : UrlObj) (s : List Char) : Option UrlObj :=
  let pq := splitPathQuery s
  if validPath pq.1 && pq.2.all (fun c => c ≠ '#') then
    some ⟨base.https, base.host, base.port, pq.1, pq.2⟩
  else none

/-- The embedded `new URL(url, base)` for a reference that starts with no
slash: either a scheme-qualified absolute reference (modelled for http(s)
schemes) or a relative path merged onto the base directory. -/
def resolveRelative (base : UrlObj) (s : List Char) : Option UrlObj :=
  let letters := s.takeWhile Char.isAlpha
  let rest := s.dropWhile Char.isAlpha
  if rest.head? = some ':' then parseUrlString (toLowerChars letters ++ rest)
  else if s.head? = some '?' then
    if (s.drop 1).all (fun c => c ≠ '#') then some { base with searchRaw := s.drop 1 }
    else none
  else
    let pq := splitPathQuery s
    let merged := dirOf base.pathname ++ pq.1
    if validPath merged && pq.2.all (fun c => c ≠ '#') then
      some { base with pathname := merged, searchRaw := pq.2 }
    else none

/-- `canonicalizeUrl` (string input branch) over character lists: trim, strip
the fragment, reject blacklisted schemes, collapse scheme slashes, obtain a
URL object by parsing or base-resolution, then normalize and serialize.
The `decodeURIComponent` retry on a failed absolute parse is modelled as the
parse failure itself (percent-decoding is outside the modelled domain). -/
def canonicalizeUrlChars (o : NormalizeOptions) (s0 : List Char) : Option (List Char) :=
  let s1 := trimChars s0
  if s1 = [] then none
  else
    let s2 := trimChars (s1.takeWhile (fun c => c ≠ '#'))
    if s2 = [] then none
    else
      let lower := toLowerChars s2
      if badSchemes.any (fun b => b.toList.isPrefixOf lower) then none
      else
        let s3 := collapseProtoSlashes s2
        let obj? : Option UrlObj :=
          if "http://".toList.isPrefixOf s3 || "https://".toList.isPrefixOf s3 then
            parseUrlString s3
          else if s3.head? = some '/' && (s3.drop 1).head? = some '/' then
            parseUrlString (protoChars o.baseUrl ++ s3)
          else if s3.head? = some '/' then resolveRootRelative o.baseUrl s3
          else resolveRelative o.baseUrl s3
        obj?.map (fun u => renderUrl (canonObj o.baseUrl.host o.forceHttps u))

/-- `canonicalizeUrl(url, options)` for a string input. -/
def canonicalizeUrl (url : String) (o : NormalizeOptions) : Option String :=
  (canonicalizeUrlChars o url.toList).map String.mk

/-- `canonicalizeUrl(url, options)` for a `URL`-object input (the branch that
skips string parsing; it cannot fail). -/
def canonicalizeUrlObj (u : UrlObj) (o : NormalizeOptions) : String :=
  String.mk (renderUrl (canonObj o.baseUrl.host o.forceHttps u))

/-- The non-page extensions filtered by `shouldCrawlUrl`. -/
def skipExtensions : List String :=
  [".pdf", ".jpg", ".jpeg", ".png", ".gif", ".svg", ".webp", ".ico",
   ".zip", ".exe", ".dmg", ".css", ".js", ".json", ".xml", ".txt",
   ".mp4", ".mp3", ".avi", ".mov", ".wmv", ".flv", ".webm",
   ".woff", ".woff2", ".ttf", ".eot", ".otf"]

/-- `shouldCrawlUrl(url, baseHostname, options)`: canonicalize, require the
same hostname up to a `www.` difference, and filter non-page extensions. -/
def shouldCrawlUrl (url : String) (baseHostname : String) (o : NormalizeOptions) : Bool :=
  match canonicalizeUrl url o with
  | none => false
  | some normalized =>
    match parseUrlString normalized.toList with
    | none => false
    | some urlObj =>
      let normalizedHostname := toLowerChars urlObj.host
      let baseLower := toLowerChars baseHostname.toList
      if stripWww normalizedHostname ≠ stripWww baseLower then false
      else
        let lowerPath := toLowerChars urlObj.pathname
        !(skipExtensions.any (fun e => e.toList.isSuffixOf lowerPath))

/-- The `^172\.(1[6-9]|2[0-9]|3[0-1])\.` range expanded to its 16 prefixes,
together with the other private ranges of `isSafeUrl`. -/
def privateRangePrefixes : List String :=
  ["10.", "172.16.", "172.17.", "172.18.", "172.19.", "172.20.", "172.21.",
   "172.22.", "172.23.", "172.24.", "172.25.", "172.26.", "172.27.",
   "172.28.", "172.29.", "172.30.", "172.31.", "192.168.", "169.254."]

/-- `isSafeUrl` from `crawler-browser.ts` (identical in all crawler
variants): block loopback hosts and private IP ranges. -/
def isSafeUrl (u : UrlObj) : Bool :=
  let hostname := String.mk (toLowerChars u.host)
  if hostname = "localhost" || hostname = "127.0.0.1" || hostname = "::1" ||
     "127.".toList.isPrefixOf hostname.toList ||
     "0.0.0.0".toList.isPrefixOf hostname.toList then
    false
  else !(privateRangePrefixes.any (fun p => p.toList.isPrefixOf hostname.toList))

/-- Validity of a `URL`-object base (the invariants the browser parser
guarantees for `options.baseUrl`, which the source always builds with
`new URL`): a nonempty well-formed lower-case host, a well-formed slash
initial path, and a normalized in-range port. -/
def validBase (u : UrlObj) : Bool :=
  u.host ≠ [] && u.host.all isHostChar && toLowerChars u.host = u.host &&
  validPath u.pathname &&
  (match u.port with
   | none => true
   | some p => p ≤ 65535 && !(u.https && p = 443) && !(!u.https && p = 80))

/-- Whether a canonical result string still carries an index-document
suffix in its path (the situation in which a second canonicalization keeps
rewriting). -/
def hasStackedIndexSuffix (s : String) : Bool :=
  match parseUrlString s.toList with
  | some u => (findIndexSuffix u.pathname).isSome
  | none => false

/-- The port component of `url.href` (`:` followed by the decimal digits),
empty when no explicit port survives parsing. -/
def portChars : Option Nat → List Char
  | none => []
  | some p => ':' :: natDigits p

/-- Well-formedness facts guaranteed for every `UrlObj` produced by the
embedded parser or base-resolution: nonempty well-formed host, well-formed
pathname, in-range non-default port. -/
def PreInv (u : UrlObj) : Prop :=
  u.host ≠ [] ∧ u.host.all isHostChar = true ∧ validPath u.pathname = true ∧
    ∀ p, u.port = some p → p ≤ 65535 ∧ ¬(u.https = true ∧ p = 443) ∧
      ¬(u.https = false ∧ p = 80)

/-! ## Sitemap parser (`src/lib/sitemap-parser.ts`) -/

/-- `MAX_SITEMAP_DEPTH` from `sitemap-parser.ts`. -/
def MAX_SITEMAP_DEPTH : Nat := 10

/-- `MAX_RETRIES` from `sitemap-parser.ts`. -/
def MAX_RETRIES : Nat := 3

/-- The selector results on one fetched sitemap document after the
namespace-stripping and `cheerio.load`: the text contents of the entries of
each of the three selectors `parseSitemap` uses. -/
structure SitemapDoc where
  indexLocs : List String
  urlLocs : List String
  anyLocs : List String
deriving Repr, DecidableEq

/-- A failed sitemap fetch: the HTTP status when the error carries a
response, and the error message. -/
structure FetchError where
  status : Option Nat
  msg : String
deriving Repr, DecidableEq

/-- Network oracle for sitemap resolution: the outcome of fetching and
loading one sitemap URL (deterministic per URL within one resolution). -/
structure SitemapEnv where
  fetchDoc : String → Except FetchError SitemapDoc

/-- The retry loop of `fetchSitemap`: up to `MAX_RETRIES` attempts, with
404/403 responses re-thrown immediately instead of retried.  The fetch
oracle is deterministic, so every attempt observes the same outcome. -/
def sitemapFetchAttempts (env : SitemapEnv) (url : String) : Nat → Except FetchError SitemapDoc
  | 0 => env.fetchDoc url
  | n + 1 =>
    match env.fetchDoc url with
    | .ok doc => .ok doc
    | .error e =>
      if e.status = some 404 || e.status = some 403 then .error e
      else sitemapFetchAttempts env url n

/-- The message of the error thrown when one sitemap fetch finally fails:
404/403 errors are re-thrown as they are, exhausted retries throw the
`Failed to fetch/parse sitemap ...` wrapper. -/
def sitemapFailureMessage (url : String) (e : FetchError) : String :=
  if e.status = some 404 || e.status = some 403 then e.msg
  else
    "Failed to fetch/parse sitemap " ++ url ++ " after 3 attempts: " ++
      (match e.status with
       | some s => "HTTP " ++ toString s ++ ": " ++ e.msg
       | none => e.msg)

/-- One fetch of `fetchSitemap` including its retry policy, reduced to its
final outcome. -/
def sitemapFetchResolved (env : SitemapEnv) (url : String) : Except String SitemapDoc :=
  match sitemapFetchAttempts env url (MAX_RETRIES - 1) with
  | .ok doc => .ok doc
  | .error e => .error (sitemapFailureMessage url e)

/-- Resolution of a child sitemap location against the current sitemap URL
(`new URL(childSitemapUrl, normalizedUrl).href`), modelled for absolute
http(s) locations; relative child locations are outside the modelled domain
and are skipped like invalid URLs. -/
def resolveChildSitemapUrl (child : String) : Option String :=
  (parseUrlString child.toList).map (fun u => String.mk (renderUrl u))

/-- `String.prototype.trim` on a `String` (list-based, kernel-evaluable). -/
def jsTrim (s : String) : String := String.mk (trimChars s.toList)

/-- String prefix test (list-based, kernel-evaluable). -/
def strStartsWith (p s : String) : Bool := p.toList.isPrefixOf s.toList

/-- The url-set branch of `fetchSitemap`: the `<loc>` texts of
`urlset > url > loc, url > loc`, with the aggressive any-`loc` fallback when
the strict selectors found nothing. -/
def sitemapUrlSetEntries (doc : SitemapDoc) : List String :=
  let foundUrls := (doc.urlLocs.map jsTrim).filter (fun t => t ≠ "")
  if foundUrls = [] then
    (doc.anyLocs.map jsTrim).filter
      (fun t => t ≠ "" && (strStartsWith "http://" t || strStartsWith "https://" t))
  else foundUrls

/-- The recursive `fetchSitemap` of `parseSitemap`.  The per-resolution
visited set is threaded through the recursion (the source shares one mutable
set across the concurrently-settled child fetches; the model visits children
left to right, which preserves the exactly-once and isolation guarantees).
The child sitemaps of an index are folded in order, mirroring the
`Promise.allSettled` fan-out: each child resolves independently, failed
children are logged and skipped, successful children's URL lists are
concatenated.  The fuel argument only makes the recursion structural: the
source recursion is bounded by the depth guard, and the top-level entry
supplies more fuel than the guard permits to consume. -/
def fetchSitemap (env : SitemapEnv) :
    Nat → List String → String → Nat → List String × Except String (List String)
  | 0, visited, _, _ => (visited, .ok [])
  | fuel + 1, visited, url, depth =>
    if url ∈ visited then (visited, .ok [])
    else if depth > MAX_SITEMAP_DEPTH then (visited, .ok [])
    else
      let visited1 := visited ++ [url]
      match sitemapFetchResolved env url with
      | .error msg => (visited1, .error msg)
      | .ok doc =>
        if doc.indexLocs ≠ [] then
          let children := doc.indexLocs.filterMap
            (fun t => if jsTrim t = "" then none else resolveChildSitemapUrl (jsTrim t))
          let folded := children.foldl
            (fun acc child =>
              let r := fetchSitemap env fuel acc.1 child (depth + 1)
              match r.2 with
              | .ok urls => (r.1, acc.2 ++ urls)
              | .error _ => (r.1, acc.2))
            (visited1, ([] : List String))
          (folded.1, .ok folded.2)
        else (visited1, .ok (sitemapUrlSetEntries doc))

/-- `parseSitemap(sitemapUrl)`: run the recursive fetch from depth 0 with a
fresh visited set.  The fuel exceeds what the depth guard allows, so the
fuel-exhaustion branch is unreachable from here. -/
def parseSitemap (env : SitemapEnv) (sitemapUrl : String) : Except String (List String) :=
  (fetchSitemap env (MAX_SITEMAP_DEPTH + 3) [] sitemapUrl 0).2

/-! ## Shared crawl data model (`crawler-browser.ts`) -/

/-- `CrawledPage`: one fetched document. -/
structure CrawledPage where
  url : String
  html : String
  statusCode : Nat
deriving Repr, DecidableEq

/-- `CrawlStatistics` as returned alongside the page set. -/
structure CrawlStatistics where
  sitemapFound : Bool
  sitemapUrl : Option String
  sitemapUrlCount : Nat
  htmlDiscoveredCount : Nat
  totalDiscovered : Nat
  totalCrawled : Nat
  crawlErrors : List String
deriving Repr, DecidableEq

/-- The options either crawler reads (timeout and debug do not influence the
returned data in the model; `maxConcurrent` exists only in the HTTP
variant). -/
structure CrawlOptions where
  maxPages : Nat := 200
  maxConcurrent : Nat := 5
deriving Repr

/-- An axios response in the crawl models: the final URL after redirects,
the body, the status, and whether the content-type check for HTML passed. -/
structure HttpResp where
  finalUrl : String
  html : String
  statusCode : Nat
  isHtml : Bool
deriving Repr, DecidableEq

/-- `hostname.startsWith("www.")`. -/
def startsWithWww (h : List Char) : Bool := "www.".toList.isPrefixOf h

/-- Root URL validation shared by all crawler variants: trim, default the
scheme to https, parse, force https (the protocol setter also drops a port
that becomes the default), and apply the SSRF guard. -/
def validateRootUrl (rootUrl : String) : Except String UrlObj :=
  let normalizedRoot := String.mk (trimChars rootUrl.toList)
  let withScheme :=
    if "http://".toList.isPrefixOf normalizedRoot.toList ||
       "https://".toList.isPrefixOf normalizedRoot.toList then normalizedRoot
    else "https://" ++ normalizedRoot
  match parseUrlString withScheme.toList with
  | none => .error "Invalid root URL"
  | some u0 =>
    let u :=
      if u0.https = false then
        let u1 : UrlObj := { u0 with https := true }
        if u1.port = some 443 then { u1 with port := none } else u1
      else u0
    if isSafeUrl u then .ok u
    else .error "Invalid root URL: Root URL is not safe to crawl (SSRF protection)"

/-- The `NormalizeOptions` every crawler builds from its validated base URL. -/
def crawlNormalizeOptions (baseUrl : UrlObj) : NormalizeOptions :=
  ⟨baseUrl, true, false, startsWithWww baseUrl.host⟩

/-- Keep the first occurrence of each string (JS `Set` insertion order). -/
def dedupFirstAux (seen : List String) : List String → List String
  | [] => []
  | x :: rest =>
    if x ∈ seen then dedupFirstAux seen rest
    else x :: dedupFirstAux (x :: seen) rest

/-- Deduplicate keeping first occurrences. -/
def dedupFirst (l : List String) : List String := dedupFirstAux [] l

/-- The shared tail of both link extractors: each raw candidate (already
resolved against the document base by the oracle) is kept when
`shouldCrawlUrl` accepts it, canonicalized, and collected into a set. -/
def filterCrawlableLinks (cands : List String) (baseHostname : String)
    (o : NormalizeOptions) : List String :=
  dedupFirst (cands.filterMap
    (fun href => if shouldCrawlUrl href baseHostname o then canonicalizeUrl href o else none))

/-- Crawl state shared by the drain loops: the visited set (a duplicate-free
list, appended only under a freshness check), the work queue, the result
list, and the statistics. -/
structure CrawlState where
  visited : List String
  queue : List String
  results : List CrawledPage
  stats : CrawlStatistics
deriving Repr

/-! ## The multi-source HTTP crawler (`crawler-browser.ts`, second
`crawlWebsite`, sitemap-first with batched HTML fallback) -/

/-- Oracles for one run of the HTTP crawler. -/
structure HttpCrawlEnv where
  discoveredSitemap : Option String
  sitemap : SitemapEnv
  fetchPage : String → Option CrawledPage
  rawLinks : String → List String

/-- The sitemap seeding loop: each sitemap URL passing `shouldCrawlUrl` is
canonicalized and, when fresh, recorded in the visited set and collected
(`sitemapUrlsToAdd`).  Returns the extended visited set and the collected
list. -/
def seedSitemapUrls (o : NormalizeOptions) (hostname : String) :
    List String → List String × List String → List String × List String
  | [], st => st
  | url :: rest, (visited, toAdd) =>
    if shouldCrawlUrl url hostname o then
      match canonicalizeUrl url o with
      | some normalized =>
        if normalized ∈ visited then seedSitemapUrls o hostname rest (visited, toAdd)
        else seedSitemapUrls o hostname rest (visited ++ [normalized], toAdd ++ [normalized])
      | none => seedSitemapUrls o hostname rest (visited, toAdd)
    else seedSitemapUrls o hostname rest (visited, toAdd)

/-- The HTML-link admission loop of the drain step: stop once the remaining
slots are filled; enqueue links that are neither visited nor already
queued (they are not marked visited at admission here). -/
def addHtmlLinks (remaining : Nat) (added : Nat) (visited : List String)
    (queue : List String) : List String → List String × Nat
  | [] => (queue, added)
  | link :: rest =>
    if added ≥ remaining then (queue, added)
    else if link ∉ visited && link ∉ queue then
      addHtmlLinks remaining (added + 1) visited (queue ++ [link]) rest
    else addHtmlLinks remaining added visited queue rest

/-- Processing of one settled batch entry in the HTTP crawler's drain loop:
skip failed fetches, canonicalize the final URL, record the page when the
canonical URL is fresh and the cap allows, then extract and admit links when
capacity remains. -/
def processFetched (env : HttpCrawlEnv) (o : NormalizeOptions) (hostname : String)
    (maxPages : Nat) (s : CrawlState) (item : String × Option CrawledPage) : CrawlState :=
  match item.2 with
  | none => s
  | some page =>
    match canonicalizeUrl page.url o with
    | none =>
      { s with stats := { s.stats with
          crawlErrors := s.stats.crawlErrors ++ ["Failed to canonicalize URL: " ++ page.url] } }
    | some canonicalUrl =>
      if canonicalUrl ∉ s.visited ∧ s.results.length < maxPages then
        let s1 : CrawlState :=
          { s with visited := s.visited ++ [canonicalUrl],
                   results := s.results ++ [⟨canonicalUrl, page.html, page.statusCode⟩],
                   stats := { s.stats with totalCrawled := s.stats.totalCrawled + 1 } }
        if s1.results.length < maxPages ∧ s1.queue.length + s1.results.length < maxPages then
          let htmlLinks := filterCrawlableLinks (env.rawLinks page.html) hostname o
          let s2 : CrawlState :=
            { s1 with stats := { s1.stats with
                htmlDiscoveredCount := s1.stats.htmlDiscoveredCount + htmlLinks.length } }
          let remaining := maxPages - s2.results.length - s2.queue.length
          { s2 with queue := (addHtmlLinks remaining 0 s2.visited s2.queue htmlLinks).1 }
        else s1
      else s

/-- The batched drain loop of the HTTP crawler (breadth-first, a batch of at
most `maxConcurrent` URLs per iteration, queue truncation when it exceeds
twice the cap).  Fuel only bounds the iteration count; every theorem below
holds for every fuel value. -/
def httpDrainLoop (env : HttpCrawlEnv) (o : NormalizeOptions) (hostname : String)
    (maxPages maxConcurrent : Nat) : Nat → CrawlState → CrawlState
  | 0, s => s
  | fuel + 1, s =>
    if s.queue = [] ∨ s.results.length ≥ maxPages then s
    else
      let batchSize := min maxConcurrent (min s.queue.length (maxPages - s.results.length))
      let batch := s.queue.take batchSize
      let s0 : CrawlState := { s with queue := s.queue.drop batchSize }
      let s1 := batch.foldl
        (fun st url => processFetched env o hostname maxPages st (url, env.fetchPage url)) s0
      if s1.results.length ≥ maxPages then s1
      else
        let s2 : CrawlState :=
          if s1.queue.length > maxPages * 2 then { s1 with queue := s1.queue.take maxPages } else s1
        httpDrainLoop env o hostname maxPages maxConcurrent fuel s2

/-- The multi-source HTTP `crawlWebsite`: validate the root, seed from the
sitemap (marking every admitted URL visited), admit the root only when the
queue leaves room, drain, and return pages with statistics. -/
def crawlWebsiteHttp (env : HttpCrawlEnv) (rootUrl : String) (options : CrawlOptions)
    (fuel : Nat) : Except String (List CrawledPage × CrawlStatistics) :=
  let maxPages := options.maxPages
  let maxConcurrent := options.maxConcurrent
  match validateRootUrl rootUrl with
  | .error e => .error e
  | .ok baseUrl =>
    let o := crawlNormalizeOptions baseUrl
    let canonicalBase := canonicalizeUrlObj baseUrl o
    let hostname := String.mk (toLowerChars baseUrl.host)
    let stats0 : CrawlStatistics := ⟨false, none, 0, 0, 0, 0, []⟩
    let seeded : List String × List String × CrawlStatistics :=
      match env.discoveredSitemap with
      | none => ([], [], stats0)
      | some smUrl =>
        let statsA := { stats0 with sitemapFound := true, sitemapUrl := some smUrl }
        match parseSitemap env.sitemap smUrl with
        | .error msg =>
          ([], [], { statsA with
              crawlErrors := statsA.crawlErrors ++ ["Failed to parse sitemap: " ++ msg] })
        | .ok sitemapUrls =>
          let statsB := { statsA with sitemapUrlCount := sitemapUrls.length }
          let seeds := seedSitemapUrls o hostname sitemapUrls ([], [])
          (seeds.1, seeds.2.take maxPages, statsB)
    let visited1 := seeded.1
    let queue1 := seeded.2.1
    let stats1 := seeded.2.2
    let withRoot : List String × List String :=
      if canonicalBase ∉ visited1 ∧ queue1.length + 0 < maxPages then
        (visited1 ++ [canonicalBase], canonicalBase :: queue1)
      else (visited1, queue1)
    let sF := httpDrainLoop env o hostname maxPages maxConcurrent fuel
      ⟨withRoot.1, withRoot.2, [], stats1⟩
    .ok (sF.results, { sF.stats with totalDiscovered := sF.visited.length })

/-! ## The browser crawler (`crawler-browser.ts`, first `crawlWebsite`) -/

/-- Oracles for one run of the browser crawler: the rendered-page loader,
the DOM link candidates of a rendered document, and the axios client used by
the HTTP fallback paths. -/
structure BrowserCrawlEnv where
  discoveredSitemap : Option String
  sitemap : SitemapEnv
  loadPage : String → Option CrawledPage
  rawLinks : String → List String
  httpGet : String → Except String HttpResp

/-- The browser crawler's sitemap seeding loop (queue and visited set are
extended together, before the queue is truncated to the cap). -/
def browserSeedSitemap (o : NormalizeOptions) (hostname : String) :
    List String → List String × List String → List String × List String
  | [], st => st
  | url :: rest, (visited, queue) =>
    if shouldCrawlUrl url hostname o then
      match canonicalizeUrl url o with
      | some normalized =>
        if normalized ∈ visited then browserSeedSitemap o hostname rest (visited, queue)
        else browserSeedSitemap o hostname rest (visited ++ [normalized], queue ++ [normalized])
      | none => browserSeedSitemap o hostname rest (visited, queue)
    else browserSeedSitemap o hostname rest (visited, queue)

/-- One-page-at-a-time drain loop of the browser crawler.  Link admission is
gated by `useSitemapAsPrimary` (HTML links are only queued when the sitemap
is not primary or the queue runs low). -/
def browserDrainLoop (env : BrowserCrawlEnv) (o : NormalizeOptions) (hostname : String)
    (maxPages : Nat) (useSitemapAsPrimary : Bool) : Nat → CrawlState → CrawlState
  | 0, s => s
  | fuel + 1, s =>
    if s.queue = [] ∨ s.results.length ≥ maxPages then s
    else
      match s.queue with
      | [] => s
      | currentUrl :: qrest =>
        let s0 : CrawlState := { s with queue := qrest }
        match env.loadPage currentUrl with
        | none =>
          browserDrainLoop env o hostname maxPages useSitemapAsPrimary fuel
            { s0 with stats := { s0.stats with
                crawlErrors := s0.stats.crawlErrors ++ ["Failed to load " ++ currentUrl] } }
        | some crawledPage =>
          match canonicalizeUrl crawledPage.url o with
          | none =>
            browserDrainLoop env o hostname maxPages useSitemapAsPrimary fuel
              { s0 with stats := { s0.stats with
                  crawlErrors := s0.stats.crawlErrors ++
                    ["Failed to canonicalize URL: " ++ crawledPage.url] } }
          | some canonicalUrl =>
            let s1 : CrawlState :=
              if canonicalUrl ∉ s0.visited then
                let sa : CrawlState :=
                  { s0 with visited := s0.visited ++ [canonicalUrl],
                            results := s0.results ++
                              [⟨canonicalUrl, crawledPage.html, crawledPage.statusCode⟩],
                            stats := { s0.stats with
                              totalCrawled := s0.stats.totalCrawled + 1 } }
                if sa.results.length < maxPages ∧ sa.queue.length + sa.results.length < maxPages then
                  let htmlLinks := filterCrawlableLinks (env.rawLinks crawledPage.html) hostname o
                  let sb : CrawlState :=
                    { sa with stats := { sa.stats with
                        htmlDiscoveredCount := sa.stats.htmlDiscoveredCount + htmlLinks.length } }
                  if !useSitemapAsPrimary || sb.queue.length < 10 then
                    let remaining := maxPages - sb.results.length - sb.queue.length
                    { sb with queue := (addHtmlLinks remaining 0 sb.visited sb.queue htmlLinks).1 }
                  else sb
                else sa
              else s0
            browserDrainLoop env o hostname maxPages useSitemapAsPrimary fuel s1

/-- The HTTP-fallback loop run when the browser drain produced no pages but
the sitemap had URLs: re-fetch the sitemap URLs over plain HTTP, skipping
visited canonical URLs and non-HTML responses, recording fetch errors. -/
def browserHttpFallbackLoop (env : BrowserCrawlEnv) (o : NormalizeOptions) (hostname : String)
    (maxPages : Nat) :
    List String → List CrawledPage × List String × CrawlStatistics →
    List CrawledPage × List String × CrawlStatistics
  | [], st => st
  | url :: rest, (httpResults, visited, stats) =>
    if httpResults.length ≥ maxPages then (httpResults, visited, stats)
    else if shouldCrawlUrl url hostname o then
      match canonicalizeUrl url o with
      | none => browserHttpFallbackLoop env o hostname maxPages rest (httpResults, visited, stats)
      | some normalized =>
        if normalized ∈ visited then
          browserHttpFallbackLoop env o hostname maxPages rest (httpResults, visited, stats)
        else
          match env.httpGet normalized with
          | .error msg =>
            browserHttpFallbackLoop env o hostname maxPages rest
              (httpResults, visited, { stats with
                crawlErrors := stats.crawlErrors ++
                  ["HTTP fallback failed for " ++ normalized ++ ": " ++ msg] })
          | .ok resp =>
            if resp.isHtml then
              browserHttpFallbackLoop env o hostname maxPages rest
                (httpResults ++ [⟨normalized, resp.html, resp.statusCode⟩],
                 visited ++ [normalized],
                 { stats with totalCrawled := stats.totalCrawled + 1 })
            else browserHttpFallbackLoop env o hostname maxPages rest (httpResults, visited, stats)
    else browserHttpFallbackLoop env o hostname maxPages rest (httpResults, visited, stats)

/-- The `Ensure at least root page is in results` block: one HTTP attempt at
the canonical base, with the browser as a second chance only when it is
still open.  Guarded by the result set being empty AND the canonical base
never having been visited. -/
def browserRootLastResort (env : BrowserCrawlEnv) (canonicalBase : String)
    (browserAlive : Bool) (results : List CrawledPage) (visited : List String)
    (stats : CrawlStatistics) : List CrawledPage × CrawlStatistics :=
  if results = [] ∧ canonicalBase ∉ visited then
    match env.httpGet canonicalBase with
    | .ok resp =>
      (results ++ [⟨canonicalBase, resp.html, resp.statusCode⟩],
       { stats with totalCrawled := stats.totalCrawled + 1 })
    | .error _ =>
      if browserAlive then
        match env.loadPage canonicalBase with
        | some rootPage =>
          (results ++ [⟨canonicalBase, rootPage.html, rootPage.statusCode⟩],
           { stats with totalCrawled := stats.totalCrawled + 1 })
        | none => (results, stats)
      else (results, stats)
  else (results, stats)

/-- STEP 1 of the browser `crawlWebsite`: discover and parse the sitemap,
seed the queue with its crawlable URLs (truncated to the cap), and decide
whether the sitemap is primary.  Returns the visited set, the queue, the
statistics, and the `useSitemapAsPrimary` flag. -/
def browserSeedPhase (env : BrowserCrawlEnv) (o : NormalizeOptions) (hostname : String)
    (maxPages : Nat) : List String × List String × CrawlStatistics × Bool :=
  let stats0 : CrawlStatistics := ⟨false, none, 0, 0, 0, 0, []⟩
  match env.discoveredSitemap with
  | none => ([], [], stats0, false)
  | some smUrl =>
    let statsA := { stats0 with sitemapFound := true, sitemapUrl := some smUrl }
    match parseSitemap env.sitemap smUrl with
    | .error msg =>
      ([], [], { statsA with
          crawlErrors := statsA.crawlErrors ++ ["Failed to parse sitemap: " ++ msg] }, false)
    | .ok sitemapUrls =>
      let statsB := { statsA with sitemapUrlCount := sitemapUrls.length }
      if sitemapUrls.length > 0 then
        let seeds := browserSeedSitemap o hostname sitemapUrls ([], [])
        let q := if seeds.2.length > maxPages then seeds.2.take maxPages else seeds.2
        (seeds.1, q, statsB, true)
      else ([], [], statsB, false)

/-- The end of the browser `crawlWebsite` after the drain loop: compute
`totalDiscovered`, run the HTTP fallback when the browser crawled nothing
but the sitemap had URLs (a sitemap parse failure here is uncaught in the
source and propagates out of the function), and finish with the root
last-resort block. -/
def browserFinishPhase (env : BrowserCrawlEnv) (o : NormalizeOptions) (hostname : String)
    (maxPages : Nat) (canonicalBase : String) (sF : CrawlState) :
    Except String (List CrawledPage × CrawlStatistics) :=
  let statsD : CrawlStatistics := { sF.stats with totalDiscovered := sF.visited.length }
  if sF.results.isEmpty && decide (statsD.sitemapUrlCount > 0) && statsD.sitemapUrl.isSome then
    match statsD.sitemapUrl with
    | none => .ok (sF.results, statsD)
    | some sm =>
      match parseSitemap env.sitemap sm with
      | .error msg => .error msg
      | .ok sitemapUrls =>
        let fb := browserHttpFallbackLoop env o hostname maxPages (sitemapUrls.take maxPages)
          ([], sF.visited, statsD)
        let results2 := if fb.1 ≠ [] then sF.results ++ fb.1 else sF.results
        let final := browserRootLastResort env canonicalBase false results2 fb.2.1 fb.2.2
        .ok final
  else
    let final := browserRootLastResort env canonicalBase true sF.results sF.visited statsD
    .ok final

/-- The browser `crawlWebsite`: sitemap-primary seeding with unconditional
root insertion near the queue front, a one-page-at-a-time browser drain, an
HTTP re-fetch fallback when nothing was crawled, and the root last-resort
block. -/
def crawlWebsiteBrowser (env : BrowserCrawlEnv) (rootUrl : String) (options : CrawlOptions)
    (fuel : Nat) : Except String (List CrawledPage × CrawlStatistics) :=
  let maxPages := options.maxPages
  match validateRootUrl rootUrl with
  | .error e => .error e
  | .ok baseUrl =>
    let o := crawlNormalizeOptions baseUrl
    let canonicalBase := canonicalizeUrlObj baseUrl o
    let hostname := String.mk (toLowerChars baseUrl.host)
    let seeded := browserSeedPhase env o hostname maxPages
    let visited1 := seeded.1
    let queue1 := seeded.2.1
    let stats1 := seeded.2.2.1
    let useSitemapAsPrimary := seeded.2.2.2
    let withRoot : List String × List String :=
      if canonicalBase ∉ visited1 then
        let pos := if useSitemapAsPrimary = true ∧ queue1 ≠ [] then min 3 queue1.length else 0
        (visited1 ++ [canonicalBase], queue1.take pos ++ canonicalBase :: queue1.drop pos)
      else (visited1, queue1)
    let sF := browserDrainLoop env o hostname maxPages useSitemapAsPrimary fuel
      ⟨withRoot.1, withRoot.2, [], stats1⟩
    browserFinishPhase env o hostname maxPages canonicalBase sF

/-! ## The sitemap-first crawler (`src/unnamed/part_001`) -/

/-- Oracles for the sitemap-first crawler. -/
structure SfCrawlEnv where
  discoveredSitemap : Option String
  sitemap : SitemapEnv
  httpGet : String → Except String HttpResp

/-- The sitemap URL filter of the sitemap-first crawler (inline domain and
extension checks rather than `shouldCrawlUrl`, and duplicate suppression
against the collected list). -/
def sfFilterUrls (o : NormalizeOptions) (baseHostnameNoWww : List Char) :
    List String → List String → List String
  | [], acc => acc
  | url :: rest, acc =>
    match canonicalizeUrl url o with
    | none => sfFilterUrls o baseHostnameNoWww rest acc
    | some normalized =>
      match parseUrlString normalized.toList with
      | none => sfFilterUrls o baseHostnameNoWww rest acc
      | some nu =>
        if stripWww (toLowerChars nu.host) ≠ baseHostnameNoWww then
          sfFilterUrls o baseHostnameNoWww rest acc
        else if skipExtensions.any (fun e => e.toList.isSuffixOf (toLowerChars nu.pathname)) then
          sfFilterUrls o baseHostnameNoWww rest acc
        else if normalized ∈ acc then sfFilterUrls o baseHostnameNoWww rest acc
        else sfFilterUrls o baseHostnameNoWww rest (acc ++ [normalized])

/-- The sequential fetch loop of the sitemap-first crawler: fetch each URL,
keep HTML responses whose canonical final URL is not already a result
(visited is extended together with the results). -/
def sfFetchLoop (env : SfCrawlEnv) (o : NormalizeOptions) :
    List String → List String × List CrawledPage × CrawlStatistics →
    List String × List CrawledPage × CrawlStatistics
  | [], st => st
  | url :: rest, (visited, results, stats) =>
    match env.httpGet url with
    | .error msg =>
      sfFetchLoop env o rest (visited, results, { stats with
        crawlErrors := stats.crawlErrors ++ ["Failed to fetch " ++ url ++ ": " ++ msg] })
    | .ok resp =>
      if resp.isHtml then
        match canonicalizeUrl resp.finalUrl o with
        | some canonicalUrl =>
          if results.any (fun r => r.url = canonicalUrl) then
            sfFetchLoop env o rest (visited, results, stats)
          else
            sfFetchLoop env o rest
              (visited ++ [canonicalUrl],
               results ++ [⟨canonicalUrl, resp.html, resp.statusCode⟩],
               { stats with totalCrawled := stats.totalCrawled + 1 })
        | none => sfFetchLoop env o rest (visited, results, stats)
      else sfFetchLoop env o rest (visited, results, stats)

/-- The `Always ensure root page is included` step of the sitemap-first
crawler: when the canonical base was never visited, fetch it and, for an
HTML response with a fresh canonical final URL, prepend the page. -/
def sfRootStep (env : SfCrawlEnv) (o : NormalizeOptions) (canonicalBase : String)
    (visited : List String) (results : List CrawledPage) (stats : CrawlStatistics) :
    List String × List CrawledPage × CrawlStatistics :=
  if canonicalBase ∉ visited then
    match env.httpGet canonicalBase with
    | .error msg =>
      (visited, results, { stats with
        crawlErrors := stats.crawlErrors ++ ["Failed to fetch root page: " ++ msg] })
    | .ok resp =>
      if resp.isHtml then
        match canonicalizeUrl resp.finalUrl o with
        | some canonicalUrl =>
          if canonicalUrl ∉ visited then
            (visited ++ [canonicalUrl],
             ⟨canonicalUrl, resp.html, resp.statusCode⟩ :: results,
             { stats with totalCrawled := stats.totalCrawled + 1 })
          else (visited, results, stats)
        | none => (visited, results, stats)
      else (visited, results, stats)
  else (visited, results, stats)

/-- The sitemap-first `crawlWebsite` of `src/unnamed/part_001`. -/
def crawlWebsiteSitemapFirst (env : SfCrawlEnv) (rootUrl : String) (options : CrawlOptions) :
    Except String (List CrawledPage × CrawlStatistics) :=
  let maxPages := options.maxPages
  match validateRootUrl rootUrl with
  | .error e => .error e
  | .ok baseUrl =>
    let o := crawlNormalizeOptions baseUrl
    let canonicalBase := canonicalizeUrlObj baseUrl o
    let hostname := toLowerChars baseUrl.host
    let stats0 : CrawlStatistics := ⟨false, none, 0, 0, 0, 0, []⟩
    let afterSitemap : List String × List CrawledPage × CrawlStatistics :=
      match env.discoveredSitemap with
      | none => ([], [], stats0)
      | some smUrl =>
        let statsA := { stats0 with sitemapFound := true, sitemapUrl := some smUrl }
        match parseSitemap env.sitemap smUrl with
        | .error msg =>
          ([], [], { statsA with
              crawlErrors := statsA.crawlErrors ++ ["Failed to parse sitemap: " ++ msg] })
        | .ok sitemapUrls =>
          let statsB := { statsA with sitemapUrlCount := sitemapUrls.length }
          if sitemapUrls.length > 0 then
            let urlsToCrawl := sfFilterUrls o (stripWww hostname) sitemapUrls []
            sfFetchLoop env o (urlsToCrawl.take maxPages) ([], [], statsB)
          else ([], [], statsB)
    let final := sfRootStep env o canonicalBase afterSitemap.1 afterSitemap.2.1 afterSitemap.2.2
    .ok (final.2.1, { final.2.2 with totalDiscovered := final.1.length })

/-! ## Concrete scenario environments used by the claim theorems -/

/-- The `<loc>` texts a url-set contributes: trimmed and nonempty. -/
def trimmedNonemptyLocs (us : List String) : List String :=
  (us.map jsTrim).filter (fun t => t ≠ "")

/-- A sitemap tree whose index references itself as its first child: the
root index lists itself and one well-formed url-set child. -/
def sitemapCycleEnv (us : List String) : SitemapEnv :=
  ⟨fun u =>
    if u = "https://example.com/sitemap.xml" then
      .ok ⟨["https://example.com/sitemap.xml", "https://example.com/child.xml"], [], []⟩
    else if u = "https://example.com/child.xml" then .ok ⟨[], us, []⟩
    else .error ⟨some 404, "Request failed with status code 404"⟩⟩

/-- A sitemap index with five children of which the first two answer
HTTP 500 on every attempt and the rest are url-sets. -/
def sitemapPartialEnv (u3 u4 u5 : List String) : SitemapEnv :=
  ⟨fun u =>
    if u = "https://example.com/sitemap.xml" then
      .ok ⟨["https://example.com/s1.xml", "https://example.com/s2.xml",
            "https://example.com/s3.xml", "https://example.com/s4.xml",
            "https://example.com/s5.xml"], [], []⟩
    else if u = "https://example.com/s1.xml" then
      .error ⟨some 500, "Request failed with status code 500"⟩
    else if u = "https://example.com/s2.xml" then
      .error ⟨some 500, "Request failed with status code 500"⟩
    else if u = "https://example.com/s3.xml" then .ok ⟨[], u3, []⟩
    else if u = "https://example.com/s4.xml" then .ok ⟨[], u4, []⟩
    else if u = "https://example.com/s5.xml" then .ok ⟨[], u5, []⟩
    else .error ⟨some 404, "Request failed with status code 404"⟩⟩

/-- HTTP crawl of a site whose sitemap index loses two of five children:
every page fetch succeeds without redirecting. -/
def partialFailureCrawlEnv : HttpCrawlEnv :=
  { discoveredSitemap := some "https://example.com/sitemap.xml"
    sitemap := sitemapPartialEnv ["https://example.com/u3"] ["https://example.com/u4"]
      ["https://example.com/u5"]
    fetchPage := fun u => some ⟨u, "<html>x</html>", 200⟩
    rawLinks := fun _ => [] }

/-- HTTP crawl of a site whose sitemap lists one page; every fetch (the
sitemap page and the root alike) succeeds with no redirect. -/
def rootGuaranteeCrawlEnv : HttpCrawlEnv :=
  { discoveredSitemap := some "https://example.com/sitemap.xml"
    sitemap := ⟨fun u =>
      if u = "https://example.com/sitemap.xml" then .ok ⟨[], ["https://example.com/a"], []⟩
      else .error ⟨some 404, "Request failed with status code 404"⟩⟩
    fetchPage := fun u => some ⟨u, "<html>page</html>", 200⟩
    rawLinks := fun _ => [] }

/-- Browser crawl of a site with no sitemap whose rendered loads all fail
while the root stays perfectly reachable over plain HTTP. -/
def emptyResultBrowserEnv : BrowserCrawlEnv :=
  { discoveredSitemap := none
    sitemap := ⟨fun _ => .error ⟨some 404, "Request failed with status code 404"⟩⟩
    loadPage := fun _ => none
    rawLinks := fun _ => []
    httpGet := fun u => .ok ⟨u, "<html>root</html>", 200, true⟩ }

/-- A crawl-style option record whose base URL is the metadata endpoint
itself (the site host under audit being the private address). -/
def selfHostOptions (host : String) : NormalizeOptions :=
  ⟨⟨false, host.toList, none, ['/'], []⟩, false, false, false⟩

/-- The options every crawler derives from the root `https://example.com`. -/
def exampleComOptions : NormalizeOptions :=
  crawlNormalizeOptions ⟨true, "example.com".toList, none, ['/'], []⟩

/-- Decidable equality for `Except` results (not provided by core). -/
def exceptDecEq {ε α : Type} [DecidableEq ε] [DecidableEq α] : DecidableEq (Except ε α)
  | .ok a, .ok b =>
    if h : a = b then .isTrue (by rw [h]) else .isFalse (by simp [h])
  | .ok _, .error _ => .isFalse (by simp)
  | .error _, .ok _ => .isFalse (by simp)
  | .error e, .error f =>
    if h : e = f then .isTrue (by rw [h]) else .isFalse (by simp [h])

instance {ε α : Type} [DecidableEq ε] [DecidableEq α] : DecidableEq (Except ε α) := exceptDecEq

/-- The url components of a result list. -/
def resultUrls (rs : List CrawledPage) : List String := rs.map (fun r => r.url)

/-- Drain-loop invariant of the HTTP crawler: distinct page URLs all present
in the visited set, the cap respected, and the crawled counter tracking the
result count. -/
def HttpInv (maxPages : Nat) (s : CrawlState) : Prop :=
  (resultUrls s.results).Nodup ∧ (∀ r ∈ s.results, r.url ∈ s.visited) ∧
  s.results.length ≤ maxPages ∧ s.stats.totalCrawled = s.results.length

/-- Drain-loop invariant of the browser crawler (additionally, the canonical
base is in the visited set from seeding on). -/
def BrowserInv (maxPages : Nat) (base : String) (s : CrawlState) : Prop :=
  (resultUrls s.results).Nodup ∧ (∀ r ∈ s.results, r.url ∈ s.visited) ∧
  s.results.length ≤ maxPages ∧ s.stats.totalCrawled = s.results.length ∧ base ∈ s.visited

/-- Invariant of the browser crawler's HTTP-fallback loop. -/
def FallbackInv (maxPages : Nat) (base : String)
    (t : List CrawledPage × List String × CrawlStatistics) : Prop :=
  (resultUrls t.1).Nodup ∧ (∀ r ∈ t.1, r.url ∈ t.2.1) ∧ t.1.length ≤ maxPages ∧
  t.2.2.totalCrawled = t.1.length ∧ base ∈ t.2.1

/-- HTTP crawl of a site with no sitemap whose root redirects to `/home`,
a page that links to `/a` and `/b`; all fetches succeed. -/
def redirectCrawlEnv : HttpCrawlEnv :=
  { discoveredSitemap := none
    sitemap := ⟨fun _ => .error ⟨some 404, "Request failed with status code 404"⟩⟩
    fetchPage := fun u =>
      if u = "https://example.com/" then some ⟨"https://example.com/home", "<html>root</html>", 200⟩
      else some ⟨u, "<html>leaf</html>", 200⟩
    rawLinks := fun h =>
      if h = "<html>root</html>" then ["https://example.com/a", "https://example.com/b"] else [] }

/-- Sitemap-first crawl of a site whose sitemap lists `/a`; all fetches
succeed with HTML responses and no redirects. -/
def sfExampleEnv : SfCrawlEnv :=
  { discoveredSitemap := some "https://example.com/sitemap.xml"
    sitemap := ⟨fun u =>
      if u = "https://example.com/sitemap.xml" then .ok ⟨[], ["https://example.com/a"], []⟩
      else .error ⟨some 404, "Request failed with status code 404"⟩⟩
    httpGet := fun u => .ok ⟨u, "<html>y</html>", 200, true⟩ }

set_option maxRecDepth 40000

/-! # Helper lemmas for the canonicalizer theorems -/

/-! ### Character-class facts -/

theorem char_toNat_ofNat {n : Nat} (h : n < 55296) : (Char.ofNat n).toNat = n := by
  rw [Char.ofNat, dif_pos (Or.inl h)]
  rfl

theorem isWsChar_cases {c : Char} (h : isWsChar c = true) :
    c = ' ' ∨ c = '\t' ∨ c = '\n' ∨ c = '\r' ∨ c = '\x0b' ∨ c = '\x0c' := by
  simp [isWsChar] at h
  tauto

theorem isHostEnd_cases {c : Char} (h : isHostEnd c = true) :
    c = '/' ∨ c = ':' ∨ c = '?' ∨ c = '#' := by
  simp [isHostEnd] at h
  tauto

theorem isHostChar_toNat {c : Char} (h : isHostChar c = true) :
    (97 ≤ c.toNat ∧ c.toNat ≤ 122) ∨ (48 ≤ c.toNat ∧ c.toNat ≤ 57) ∨
      c.toNat = 46 ∨ c.toNat = 45 ∨ c.toNat = 95 := by
  simp only [isHostChar, Bool.or_eq_true, Bool.and_eq_true, decide_eq_true_eq] at h
  rcases h with (((h1 | h1) | rfl) | rfl) | rfl
  · exact Or.inl h1
  · exact Or.inr (Or.inl h1)
  · exact Or.inr (Or.inr (Or.inl (by decide)))
  · exact Or.inr (Or.inr (Or.inr (Or.inl (by decide))))
  · exact Or.inr (Or.inr (Or.inr (Or.inr (by decide))))

theorem isHostChar_not_host_end {c : Char} (h : isHostChar c = true) : isHostEnd c = false := by
  cases hbe : isHostEnd c with
  | false => rfl
  | true =>
    rcases isHostEnd_cases hbe with rfl | rfl | rfl | rfl <;> exact absurd h (by decide)

theorem isHostChar_not_ws {c : Char} (h : isHostChar c = true) : isWsChar c = false := by
  cases hbe : isWsChar c with
  | false => rfl
  | true =>
    rcases isWsChar_cases hbe with rfl | rfl | rfl | rfl | rfl | rfl <;> exact absurd h (by decide)

theorem isHostChar_toLower {c : Char} (h : isHostChar c = true) : c.toLower = c := by
  rw [Char.toLower, if_neg]
  intro hc
  rcases isHostChar_toNat h with h1 | h1 | h1 | h1 | h1 <;> omega

theorem toLower_toLower (c : Char) : c.toLower.toLower = c.toLower := by
  by_cases h : c.toNat ≥ 65 ∧ c.toNat ≤ 90
  · have hin : c.toLower = Char.ofNat (c.toNat + 32) := by rw [Char.toLower, if_pos h]
    rw [hin, Char.toLower, if_neg]
    intro hc
    rw [char_toNat_ofNat (by omega)] at hc
    omega
  · have hin : c.toLower = c := by rw [Char.toLower, if_neg h]
    rw [hin, hin]

theorem toLowerChars_idem (l : List Char) : toLowerChars (toLowerChars l) = toLowerChars l := by
  simp only [toLowerChars, List.map_map]
  exact List.map_congr_left (fun c _ => by simpa using toLower_toLower c)

theorem isPathChar_facts {c : Char} (h : isPathChar c = true) :
    32 < c.toNat ∧ c.toNat < 127 ∧ c ≠ '#' ∧ c ≠ '?' ∧ isWsChar c = false := by
  simp only [isPathChar, Bool.and_eq_true, decide_eq_true_eq] at h
  have h1 : 32 < c.toNat := by tauto
  have h2 : c.toNat < 127 := by tauto
  have h3 : c ≠ '#' := by tauto
  have h4 : c ≠ '?' := by tauto
  refine ⟨h1, h2, h3, h4, ?_⟩
  cases hbe : isWsChar c with
  | false => rfl
  | true =>
    rcases isWsChar_cases hbe with rfl | rfl | rfl | rfl | rfl | rfl <;>
      exact absurd h1 (by decide)

theorem isPathChar_slash : isPathChar '/' = true := by decide

/-! ### takeWhile / dropWhile / trim -/

theorem takeWhile_eq_self_of_all {p : Char → Bool} :
    ∀ {l : List Char}, (∀ c ∈ l, p c = true) → l.takeWhile p = l
  | [], _ => rfl
  | c :: t, h => by
    rw [List.takeWhile_cons, h c (List.mem_cons_self c t)]
    exact congrArg (c :: ·) (takeWhile_eq_self_of_all (fun x hx => h x (List.mem_cons_of_mem c hx)))

theorem dropWhile_eq_nil_of_all {p : Char → Bool} :
    ∀ {l : List Char}, (∀ c ∈ l, p c = true) → l.dropWhile p = []
  | [], _ => rfl
  | c :: t, h => by
    rw [List.dropWhile_cons, h c (List.mem_cons_self c t)]
    exact dropWhile_eq_nil_of_all (fun x hx => h x (List.mem_cons_of_mem c hx))

theorem dropWhile_eq_self_of_head {p : Char → Bool} :
    ∀ {l : List Char}, (∀ c ∈ l.head?, p c = false) → l.dropWhile p = l
  | [], _ => rfl
  | c :: t, h => by
    rw [List.dropWhile_cons, h c rfl]
    rfl

theorem takeWhile_append_all {p : Char → Bool} :
    ∀ {l : List Char} (r : List Char), (∀ c ∈ l, p c = true) →
      (l ++ r).takeWhile p = l ++ r.takeWhile p
  | [], r, _ => rfl
  | c :: t, r, h => by
    rw [List.cons_append, List.takeWhile_cons, h c (List.mem_cons_self c t), List.cons_append]
    exact congrArg (c :: ·) (takeWhile_append_all r (fun x hx => h x (List.mem_cons_of_mem c hx)))

theorem dropWhile_append_all {p : Char → Bool} :
    ∀ {l : List Char} (r : List Char), (∀ c ∈ l, p c = true) →
      (l ++ r).dropWhile p = r.dropWhile p
  | [], _, _ => rfl
  | c :: t, r, h => by
    rw [List.cons_append, List.dropWhile_cons, h c (List.mem_cons_self c t)]
    exact dropWhile_append_all r (fun x hx => h x (List.mem_cons_of_mem c hx))

theorem trimChars_eq_self {l : List Char} (h : ∀ c ∈ l, isWsChar c = false) :
    trimChars l = l := by
  have h1 : l.dropWhile isWsChar = l := by
    cases hl : l with
    | nil => rfl
    | cons c t =>
      refine dropWhile_eq_self_of_head ?_
      intro x hx
      simp only [List.head?_cons, Option.mem_def, Option.some.injEq] at hx
      exact hx ▸ h c (hl ▸ List.mem_cons_self c t)
  have h2 : l.reverse.dropWhile isWsChar = l.reverse := by
    cases hl : l.reverse with
    | nil => rfl
    | cons c t =>
      refine dropWhile_eq_self_of_head ?_
      intro x hx
      simp only [List.head?_cons, Option.mem_def, Option.some.injEq] at hx
      subst hx
      have : c ∈ l.reverse := hl ▸ List.mem_cons_self c t
      exact h c (List.mem_reverse.mp this)
  rw [trimChars, h1, h2, List.reverse_reverse]

theorem dropWhile_head_false {p : Char → Bool} :
    ∀ {l : List Char} {c : Char}, (l.dropWhile p).head? = some c → p c = false
  | [], c, h => by simp at h
  | a :: t, c, h => by
    rw [List.dropWhile_cons] at h
    by_cases ha : p a = true
    · rw [ha] at h
      simp only [if_true] at h
      exact dropWhile_head_false h
    · rw [Bool.not_eq_true] at ha
      rw [ha] at h
      simp only [Bool.false_eq_true, if_false, List.head?_cons, Option.some.injEq] at h
      exact h ▸ ha

/-! ### natDigits / digitsToNat -/

theorem digitsToNat_append (l : List Char) (c : Char) :
    digitsToNat (l ++ [c]) = 10 * digitsToNat l + (c.toNat - 48) := by
  simp [digitsToNat, List.foldl_append]

theorem isDigit_ofNat {d : Nat} (h : d < 10) : (Char.ofNat (48 + d)).isDigit = true := by
  interval_cases d <;> decide

theorem natDigitsAux_spec :
    ∀ fuel n, n < fuel →
      digitsToNat (natDigitsAux fuel n) = n ∧ natDigitsAux fuel n ≠ [] ∧
        ∀ c ∈ natDigitsAux fuel n, c.isDigit = true ∧ 48 ≤ c.toNat ∧ c.toNat ≤ 57
  | 0, n, h => absurd h (Nat.not_lt_zero n)
  | fuel + 1, n, h => by
    rw [natDigitsAux]
    by_cases hn : n < 10
    · rw [if_pos hn]
      have ht : (Char.ofNat (48 + n)).toNat = 48 + n := char_toNat_ofNat (by omega)
      refine ⟨?_, by simp, ?_⟩
      · simp [digitsToNat, ht]
      · intro c hc
        simp only [List.mem_singleton] at hc
        subst hc
        exact ⟨isDigit_ofNat hn, by omega, by omega⟩
    · rw [if_neg hn]
      have hlt : n / 10 < fuel := by
        have h1 : n / 10 < n := Nat.div_lt_self (by omega) (by omega)
        omega
      obtain ⟨ih1, ih2, ih3⟩ := natDigitsAux_spec fuel (n / 10) hlt
      have ht : (Char.ofNat (48 + n % 10)).toNat = 48 + n % 10 :=
        char_toNat_ofNat (by omega)
      refine ⟨?_, by simp, ?_⟩
      · rw [digitsToNat_append, ih1, ht]
        omega
      · intro c hc
        rcases List.mem_append.mp hc with hc | hc
        · exact ih3 c hc
        · simp only [List.mem_singleton] at hc
          subst hc
          exact ⟨isDigit_ofNat (Nat.mod_lt n (by omega)), by omega, by omega⟩

theorem natDigits_spec (n : Nat) :
    digitsToNat (natDigits n) = n ∧ natDigits n ≠ [] ∧
      ∀ c ∈ natDigits n, c.isDigit = true ∧ 48 ≤ c.toNat ∧ c.toNat ≤ 57 :=
  natDigitsAux_spec (n + 1) n (Nat.lt_succ_self n)

/-! ### stripWww / toLowerChars -/

theorem isPrefixOf_append (l r : List Char) : l.isPrefixOf (l ++ r) = true := by
  induction l with
  | nil => simp [List.isPrefixOf]
  | cons c t ih => simp [List.isPrefixOf, ih]

theorem stripWww_www_append (y : List Char) :
    stripWww ("www.".toList ++ y) = y := by
  rw [stripWww, if_pos (isPrefixOf_append _ y)]
  rfl

theorem isPrefixOf_length_le {l r : List Char} (h : l.isPrefixOf r = true) :
    l.length ≤ r.length := by
  induction l generalizing r with
  | nil => simp
  | cons c t ih =>
    cases r with
    | nil => simp [List.isPrefixOf] at h
    | cons d s =>
      simp only [List.isPrefixOf, Bool.and_eq_true, beq_iff_eq] at h
      have := ih h.2
      simp only [List.length_cons]
      omega

theorem stripWww_ne_of_www {x : List Char} (h : "www.".toList.isPrefixOf x = true) :
    stripWww x ≠ x := by
  rw [stripWww, if_pos h]
  intro he
  have hlen := congrArg List.length he
  have hle : 4 ≤ x.length := by simpa using isPrefixOf_length_le h
  simp only [List.length_drop] at hlen
  omega

theorem toLowerChars_of_all_host {l : List Char} (h : l.all isHostChar = true) :
    toLowerChars l = l := by
  rw [toLowerChars]
  refine List.map_congr_left ?_ |>.trans (List.map_id l)
  intro c hc
  exact isHostChar_toLower (by simpa using List.all_eq_true.mp h c hc)

theorem toLowerChars_append (l r : List Char) :
    toLowerChars (l ++ r) = toLowerChars l ++ toLowerChars r := by
  simp [toLowerChars]

theorem toLowerChars_drop (l : List Char) (k : Nat) :
    toLowerChars (l.drop k) = (toLowerChars l).drop k := by
  simp [toLowerChars, List.map_drop]

theorem stripWww_lower_fixed {l : List Char} (h : toLowerChars l = l) :
    toLowerChars (stripWww l) = stripWww l := by
  rw [stripWww]
  by_cases hp : "www.".toList.isPrefixOf l = true
  · rw [if_pos hp, toLowerChars_drop, h]
  · rw [if_neg hp, h]

/-! ### applyWwwPolicy -/

theorem applyWwwPolicy_fix {bh x : List Char} (hx : toLowerChars x = x)
    (hcase : stripWww (toLowerChars bh) ≠ stripWww x ∨
      "www.".toList.isPrefixOf (toLowerChars bh) = "www.".toList.isPrefixOf x) :
    applyWwwPolicy bh x = x := by
  simp only [applyWwwPolicy, hx]
  by_cases hEq : stripWww (toLowerChars bh) = stripWww x
  · rw [if_pos hEq]
    rcases hcase with hne | hbu
    · exact absurd hEq hne
    · by_cases hB : "www.".toList.isPrefixOf (toLowerChars bh) = true
      · rw [if_pos hB, if_pos (hbu ▸ hB)]
      · rw [if_neg hB, if_neg (fun hu => hB (hbu ▸ hu))]
  · rw [if_neg hEq]

theorem applyWwwPolicy_idem (bh h : List Char) :
    applyWwwPolicy bh (toLowerChars (applyWwwPolicy bh h)) =
      toLowerChars (applyWwwPolicy bh h) := by
  have hW : toLowerChars "www.".toList = "www.".toList := by decide
  have huh : toLowerChars (toLowerChars h) = toLowerChars h := toLowerChars_idem h
  simp only [applyWwwPolicy]
  by_cases hEq : stripWww (toLowerChars bh) = stripWww (toLowerChars h)
  · rw [if_pos hEq]
    by_cases hB : "www.".toList.isPrefixOf (toLowerChars bh) = true
    · rw [if_pos hB]
      by_cases hU : "www.".toList.isPrefixOf (toLowerChars h) = true
      · rw [if_pos hU]
        refine applyWwwPolicy_fix huh (Or.inr ?_)
        rw [hB, hU]
      · rw [if_neg hU]
        have hx : toLowerChars ("www.".toList ++ stripWww (toLowerChars h)) =
            "www.".toList ++ stripWww (toLowerChars h) := by
          rw [toLowerChars_append, hW, stripWww_lower_fixed huh]
        rw [hx]
        refine applyWwwPolicy_fix hx (Or.inr ?_)
        rw [hB, isPrefixOf_append]
    · rw [if_neg hB]
      by_cases hU : "www.".toList.isPrefixOf (toLowerChars h) = true
      · rw [if_pos hU]
        have hx : toLowerChars (stripWww (toLowerChars h)) = stripWww (toLowerChars h) :=
          stripWww_lower_fixed huh
        rw [hx]
        by_cases hwx : "www.".toList.isPrefixOf (stripWww (toLowerChars h)) = true
        · refine applyWwwPolicy_fix hx (Or.inl ?_)
          rw [hEq]
          exact (stripWww_ne_of_www hwx).symm
        · refine applyWwwPolicy_fix hx (Or.inr ?_)
          rw [Bool.eq_false_iff.mpr hB, Bool.eq_false_iff.mpr hwx]
      · rw [if_neg hU]
        refine applyWwwPolicy_fix huh (Or.inr ?_)
        rw [Bool.eq_false_iff.mpr hB, Bool.eq_false_iff.mpr hU]
  · rw [if_neg hEq]
    refine applyWwwPolicy_fix huh (Or.inl ?_)
    exact hEq

theorem all_host_drop {l : List Char} (k : Nat) (h : l.all isHostChar = true) :
    (l.drop k).all isHostChar = true := by
  rw [List.all_eq_true] at h ⊢
  exact fun c hc => h c (List.mem_of_mem_drop hc)

theorem stripWww_all_host {l : List Char} (h : l.all isHostChar = true) :
    (stripWww l).all isHostChar = true := by
  rw [stripWww]
  by_cases hp : "www.".toList.isPrefixOf l = true
  · rw [if_pos hp]
    exact all_host_drop 4 h
  · rw [if_neg hp]
    exact h

theorem applyWwwPolicy_host_ok {bh h : List Char} (hbne : bh ≠ [])
    (hbl : toLowerChars bh = bh) (hne : h ≠ []) (hall : h.all isHostChar = true) :
    applyWwwPolicy bh h ≠ [] ∧ (applyWwwPolicy bh h).all isHostChar = true := by
  have hlow : toLowerChars h = h := toLowerChars_of_all_host hall
  simp only [applyWwwPolicy, hbl, hlow]
  by_cases hEq : stripWww bh = stripWww h
  · rw [if_pos hEq]
    by_cases hB : "www.".toList.isPrefixOf bh = true
    · rw [if_pos hB]
      by_cases hU : "www.".toList.isPrefixOf h = true
      · rw [if_pos hU]
        exact ⟨hne, hall⟩
      · rw [if_neg hU]
        refine ⟨by simp, ?_⟩
        rw [List.all_append]
        refine Bool.and_eq_true_iff.mpr ⟨by decide, stripWww_all_host hall⟩
    · rw [if_neg hB]
      by_cases hU : "www.".toList.isPrefixOf h = true
      · rw [if_pos hU]
        have hsb : stripWww bh = bh := by
          rw [stripWww, if_neg hB]
        refine ⟨?_, stripWww_all_host hall⟩
        rw [← hEq, hsb]
        exact hbne
      · rw [if_neg hU]
        exact ⟨hne, hall⟩
  · rw [if_neg hEq]
    exact ⟨hne, hall⟩

/-! ### collapseSlashes and the scanners -/

theorem hds2 (c d : Char) (t : List Char) :
    hasDoubleSlash (c :: d :: t) = ((c = '/' && d = '/') || hasDoubleSlash (d :: t)) := rfl

theorem hsd2 (c d : Char) (t : List Char) :
    hasSlashDot (c :: d :: t) = ((c = '/' && d = '.') || hasSlashDot (d :: t)) := rfl

theorem hds_tail {c : Char} {t : List Char} (h : hasDoubleSlash (c :: t) = false) :
    hasDoubleSlash t = false := by
  cases t with
  | nil => rfl
  | cons d t' =>
    rw [hds2] at h
    exact (Bool.or_eq_false_iff.mp h).2

theorem hsd_tail {c : Char} {t : List Char} (h : hasSlashDot (c :: t) = false) :
    hasSlashDot t = false := by
  cases t with
  | nil => rfl
  | cons d t' =>
    rw [hsd2] at h
    exact (Bool.or_eq_false_iff.mp h).2

theorem hds_cons_ne {c : Char} (hc : c ≠ '/') (t : List Char) :
    hasDoubleSlash (c :: t) = hasDoubleSlash t := by
  cases t with
  | nil => rfl
  | cons d t' =>
    rw [hds2]
    simp [hc]

theorem hsd_cons_ne {c : Char} (hc : c ≠ '/') (t : List Char) :
    hasSlashDot (c :: t) = hasSlashDot t := by
  cases t with
  | nil => rfl
  | cons d t' =>
    rw [hsd2]
    simp [hc]

theorem hds_dropWhile {p : Char → Bool} :
    ∀ {l : List Char}, hasDoubleSlash l = false → hasDoubleSlash (l.dropWhile p) = false
  | [], _ => rfl
  | c :: t, h => by
    rw [List.dropWhile_cons]
    by_cases hp : p c = true
    · rw [hp, if_pos rfl]
      exact hds_dropWhile (hds_tail h)
    · rw [Bool.eq_false_iff.mpr hp]
      simpa using h

theorem hsd_dropWhile {p : Char → Bool} :
    ∀ {l : List Char}, hasSlashDot l = false → hasSlashDot (l.dropWhile p) = false
  | [], _ => rfl
  | c :: t, h => by
    rw [List.dropWhile_cons]
    by_cases hp : p c = true
    · rw [hp, if_pos rfl]
      exact hsd_dropWhile (hsd_tail h)
    · rw [Bool.eq_false_iff.mpr hp]
      simpa using h

theorem collapseSlashesAux_false_cons (c : Char) (t : List Char) :
    collapseSlashesAux false (c :: t) =
      c :: (if c = '/' then collapseSlashesAux true t else collapseSlashesAux false t) := by
  rw [collapseSlashesAux]
  by_cases hc : c = '/'
  · subst hc
    rw [if_pos rfl, if_pos rfl]
    rfl
  · rw [if_neg hc, if_neg hc]

theorem collapseSlashesAux_true_eq :
    ∀ l : List Char, collapseSlashesAux true l =
      collapseSlashesAux false (l.dropWhile (fun c => c = '/'))
  | [] => rfl
  | c :: t => by
    by_cases hc : c = '/'
    · subst hc
      have h1 : collapseSlashesAux true ('/' :: t) = collapseSlashesAux true t := by
        rw [collapseSlashesAux]
        simp
      have h2 : List.dropWhile (fun c => decide (c = '/')) ('/' :: t) =
          List.dropWhile (fun c => decide (c = '/')) t := by
        simp
      rw [h1, h2]
      exact collapseSlashesAux_true_eq t
    · have h1 : collapseSlashesAux true (c :: t) = c :: collapseSlashesAux false t := by
        rw [collapseSlashesAux]
        simp [hc]
      have h2 : List.dropWhile (fun c => decide (c = '/')) (c :: t) = c :: t := by
        simp [List.dropWhile_cons, hc]
      rw [h1, h2, collapseSlashesAux_false_cons, if_neg hc]

theorem collapseSlashesAux_true_head {l : List Char} {c : Char}
    (h : (collapseSlashesAux true l).head? = some c) : c ≠ '/' := by
  rw [collapseSlashesAux_true_eq] at h
  cases hr : l.dropWhile (fun c => decide (c = '/')) with
  | nil =>
    rw [hr] at h
    simp [collapseSlashesAux] at h
  | cons d t =>
    rw [hr, collapseSlashesAux_false_cons] at h
    simp only [List.head?_cons, Option.some.injEq] at h
    subst h
    have hpd : (fun x => decide (x = '/')) d = false :=
      dropWhile_head_false (by rw [hr]; rfl)
    simpa using hpd

theorem collapseSlashesAux_no_hds :
    ∀ (l : List Char) (b : Bool), hasDoubleSlash (collapseSlashesAux b l) = false
  | [], b => by cases b <;> rfl
  | c :: t, b => by
    by_cases hc : c = '/'
    · subst hc
      cases b with
      | true =>
        have h1 : collapseSlashesAux true ('/' :: t) = collapseSlashesAux true t := by
          rw [collapseSlashesAux]
          simp
        rw [h1]
        exact collapseSlashesAux_no_hds t true
      | false =>
        rw [collapseSlashesAux_false_cons, if_pos rfl]
        cases ha : collapseSlashesAux true t with
        | nil => decide
        | cons d t' =>
          have hd : d ≠ '/' := collapseSlashesAux_true_head (by rw [ha]; rfl)
          have ht' : hasDoubleSlash (d :: t') = false := by
            rw [← ha]
            exact collapseSlashesAux_no_hds t true
          rw [hds2]
          simp [hd, ht']
    · have h1 : collapseSlashesAux b (c :: t) = c :: collapseSlashesAux false t := by
        cases b with
        | false => rw [collapseSlashesAux_false_cons, if_neg hc]
        | true =>
          rw [collapseSlashesAux]
          simp [hc]
      rw [h1, hds_cons_ne hc]
      exact collapseSlashesAux_no_hds t false

theorem collapseSlashesAux_all {q : Char → Bool} (hq : q '/' = true) :
    ∀ (l : List Char) (b : Bool), l.all q = true → (collapseSlashesAux b l).all q = true
  | [], b, _ => by cases b <;> rfl
  | c :: t, b, h => by
    have hct : q c = true ∧ t.all q = true := by simpa using h
    by_cases hc : c = '/'
    · subst hc
      cases b with
      | true =>
        have h1 : collapseSlashesAux true ('/' :: t) = collapseSlashesAux true t := by
          rw [collapseSlashesAux]
          simp
        rw [h1]
        exact collapseSlashesAux_all hq t true hct.2
      | false =>
        rw [collapseSlashesAux_false_cons, if_pos rfl]
        simp only [List.all_cons, hq, Bool.true_and]
        exact collapseSlashesAux_all hq t true hct.2
    · have h1 : collapseSlashesAux b (c :: t) = c :: collapseSlashesAux false t := by
        cases b with
        | false => rw [collapseSlashesAux_false_cons, if_neg hc]
        | true =>
          rw [collapseSlashesAux]
          simp [hc]
      rw [h1]
      simp only [List.all_cons, hct.1, Bool.true_and]
      exact collapseSlashesAux_all hq t false hct.2

theorem collapseSlashesAux_id :
    ∀ l : List Char, hasDoubleSlash l = false → collapseSlashesAux false l = l
  | [], _ => rfl
  | c :: t, h => by
    by_cases hc : c = '/'
    · subst hc
      rw [collapseSlashesAux_false_cons, if_pos rfl, collapseSlashesAux_true_eq]
      have hdw : t.dropWhile (fun c => decide (c = '/')) = t := by
        cases t with
        | nil => rfl
        | cons d t' =>
          have hd : d ≠ '/' := by
            intro he
            subst he
            rw [hds2] at h
            simp at h
          simp [List.dropWhile_cons, hd]
      rw [hdw]
      exact congrArg ('/' :: ·) (collapseSlashesAux_id t (hds_tail h))
    · rw [collapseSlashesAux_false_cons, if_neg hc]
      exact congrArg (c :: ·) (collapseSlashesAux_id t (hds_tail h))

theorem hsd_slash_head :
    ∀ {l : List Char}, hasSlashDot ('/' :: l) = false →
      ∀ {d : Char}, (l.dropWhile (fun c => decide (c = '/'))).head? = some d → d ≠ '.'
  | [], _, d, hd => by simp at hd
  | e :: t, h, d, hd => by
    by_cases he : e = '/'
    · subst he
      have h2 : hasSlashDot ('/' :: t) = false := by
        rw [hsd2] at h
        have := (Bool.or_eq_false_iff.mp h).2
        exact this
      have hdw : (('/' :: t).dropWhile (fun c => decide (c = '/'))) =
          t.dropWhile (fun c => decide (c = '/')) := by simp
      rw [hdw] at hd
      exact hsd_slash_head h2 hd
    · have hdw : ((e :: t).dropWhile (fun c => decide (c = '/'))) = e :: t := by
        simp [List.dropWhile_cons, he]
      rw [hdw] at hd
      simp only [List.head?_cons, Option.some.injEq] at hd
      subst hd
      rw [hsd2] at h
      rcases Bool.or_eq_false_iff.mp h with ⟨h1, _⟩
      intro he2
      subst he2
      simp at h1

theorem length_dropWhile_le (p : Char → Bool) :
    ∀ l : List Char, (l.dropWhile p).length ≤ l.length
  | [] => Nat.le_refl 0
  | c :: t => by
    rw [List.dropWhile_cons]
    by_cases hp : p c = true
    · rw [hp, if_pos rfl]
      exact Nat.le_trans (length_dropWhile_le p t) (by simp)
    · rw [Bool.eq_false_iff.mpr hp]
      simp

theorem collapseSlashesAux_no_hsd :
    ∀ (n : Nat) (l : List Char), l.length ≤ n → hasSlashDot l = false →
      hasSlashDot (collapseSlashesAux false l) = false
  | 0, l, hl, _ => by
    have : l = [] := List.eq_nil_of_length_eq_zero (Nat.le_zero.mp hl)
    subst this
    rfl
  | _ + 1, [], _, _ => rfl
  | n + 1, c :: t, hl, h => by
    have hlt : t.length ≤ n := by
      simp only [List.length_cons] at hl
      omega
    by_cases hc : c = '/'
    · subst hc
      rw [collapseSlashesAux_false_cons, if_pos rfl, collapseSlashesAux_true_eq]
      cases hr : t.dropWhile (fun c => decide (c = '/')) with
      | nil =>
        rw [collapseSlashesAux]
        decide
      | cons d t2 =>
        have hd_slash : d ≠ '/' := by
          have hpd : (fun x => decide (x = '/')) d = false :=
            dropWhile_head_false (by rw [hr]; rfl)
          simpa using hpd
        have hd_dot : d ≠ '.' := hsd_slash_head h (by rw [hr]; rfl)
        rw [collapseSlashesAux_false_cons, if_neg hd_slash]
        have ht2 : hasSlashDot t2 = false := by
          have h1 : hasSlashDot t = false := hsd_tail h
          have h2 : hasSlashDot (t.dropWhile (fun c => decide (c = '/'))) = false :=
            hsd_dropWhile h1
          rw [hr] at h2
          exact hsd_tail h2
        have ht2len : t2.length ≤ n := by
          have h3 : (t.dropWhile (fun c => decide (c = '/'))).length ≤ t.length :=
            length_dropWhile_le (fun c => decide (c = '/')) t
          rw [hr] at h3
          simp only [List.length_cons] at h3
          omega
        have hrec : hasSlashDot (collapseSlashesAux false t2) = false :=
          collapseSlashesAux_no_hsd n t2 ht2len ht2
        rw [hsd2]
        have hfirst : ('/' = '/' && d = '.') = false := by simp [hd_dot]
        rw [hfirst, Bool.false_or, hsd_cons_ne hd_slash]
        exact hrec
    · rw [collapseSlashesAux_false_cons, if_neg hc, hsd_cons_ne hc]
      exact collapseSlashesAux_no_hsd n t hlt (hsd_tail h)

/-! ### scanner append lemmas -/

theorem hds_append_left :
    ∀ {q : List Char} {s : List Char}, hasDoubleSlash (q ++ s) = false →
      hasDoubleSlash q = false
  | [], _, _ => rfl
  | [_], _, _ => rfl
  | x :: y :: q', s, h => by
    rw [List.cons_append, List.cons_append] at h
    rw [hds2] at h ⊢
    rcases Bool.or_eq_false_iff.mp h with ⟨h1, h2⟩
    rw [h1, Bool.false_or]
    exact hds_append_left (by rw [List.cons_append]; exact h2)

theorem hsd_append_left :
    ∀ {q : List Char} {s : List Char}, hasSlashDot (q ++ s) = false →
      hasSlashDot q = false
  | [], _, _ => rfl
  | [_], _, _ => rfl
  | x :: y :: q', s, h => by
    rw [List.cons_append, List.cons_append] at h
    rw [hsd2] at h ⊢
    rcases Bool.or_eq_false_iff.mp h with ⟨h1, h2⟩
    rw [h1, Bool.false_or]
    exact hsd_append_left (by rw [List.cons_append]; exact h2)

theorem hds_no_last_slash :
    ∀ {q s : List Char}, hasDoubleSlash (q ++ '/' :: s) = false →
      q.getLast? ≠ some '/'
  | [], _, _ => by simp
  | [x], s, h => by
    rw [List.cons_append, List.nil_append, hds2] at h
    rcases Bool.or_eq_false_iff.mp h with ⟨h1, _⟩
    simp only [List.getLast?_singleton, ne_eq, Option.some.injEq]
    intro he
    subst he
    simp at h1
  | x :: y :: q', s, h => by
    rw [List.cons_append] at h
    have h2 : hasDoubleSlash ((y :: q') ++ '/' :: s) = false := by
      rw [List.cons_append] at h ⊢
      rw [hds2] at h
      exact (Bool.or_eq_false_iff.mp h).2
    rw [List.getLast?_cons_cons]
    exact hds_no_last_slash h2

theorem hds_append_slash :
    ∀ {q : List Char}, hasDoubleSlash q = false → q.getLast? ≠ some '/' →
      hasDoubleSlash (q ++ ['/']) = false
  | [], _, _ => rfl
  | [x], _, hl => by
    simp only [List.getLast?_singleton, ne_eq, Option.some.injEq] at hl
    rw [List.cons_append, List.nil_append, hds2]
    simp only [Bool.or_eq_false_iff]
    refine ⟨by simp [hl], rfl⟩
  | x :: y :: q', h, hl => by
    rw [List.cons_append, List.cons_append, hds2]
    rw [hds2] at h
    rcases Bool.or_eq_false_iff.mp h with ⟨h1, h2⟩
    rw [List.getLast?_cons_cons] at hl
    rw [h1, Bool.false_or, ← List.cons_append]
    exact hds_append_slash h2 hl

theorem hsd_append_slash :
    ∀ {q : List Char}, hasSlashDot q = false → hasSlashDot (q ++ ['/']) = false
  | [], _ => rfl
  | [x], _ => by
    rw [List.cons_append, List.nil_append, hsd2]
    simp only [Bool.or_eq_false_iff]
    refine ⟨by simp, rfl⟩
  | x :: y :: q', h => by
    rw [List.cons_append, List.cons_append, hsd2]
    rw [hsd2] at h
    rcases Bool.or_eq_false_iff.mp h with ⟨h1, h2⟩
    rw [h1, Bool.false_or, ← List.cons_append]
    exact hsd_append_slash h2

/-! ### index-file collapse -/

theorem toLower_eq_slash {c : Char} (h : c.toLower = '/') : c = '/' := by
  rw [Char.toLower] at h
  by_cases hc : c.toNat ≥ 65 ∧ c.toNat ≤ 90
  · rw [if_pos hc] at h
    have := congrArg Char.toNat h
    rw [char_toNat_ofNat (by omega)] at this
    have hslash : ('/').toNat = 47 := by decide
    omega
  · rwa [if_neg hc] at h

theorem isPrefixOf_to_append {l : List Char} :
    ∀ {r : List Char}, l.isPrefixOf r = true → ∃ t, l ++ t = r := by
  induction l with
  | nil => exact fun h => ⟨_, rfl⟩
  | cons c cs ih =>
    intro r h
    cases r with
    | nil => simp [List.isPrefixOf] at h
    | cons d ds =>
      simp only [List.isPrefixOf, Bool.and_eq_true, beq_iff_eq] at h
      obtain ⟨rfl, h2⟩ := h
      obtain ⟨t, ht⟩ := ih h2
      exact ⟨t, by rw [List.cons_append, ht]⟩

theorem isSuffixOf_suffix {l r : List Char} (h : l.isSuffixOf r = true) : l <:+ r := by
  rw [List.isSuffixOf] at h
  obtain ⟨t, ht⟩ := isPrefixOf_to_append h
  refine ⟨t.reverse, ?_⟩
  have h2 := congrArg List.reverse ht
  simpa using h2

theorem findIndexSuffix_some {p suf : List Char} (h : findIndexSuffix p = some suf) :
    suf ∈ indexSuffixes.map String.toList ∧ suf.isSuffixOf (toLowerChars p) = true := by
  rw [findIndexSuffix] at h
  have h2 := List.find?_some h
  exact ⟨List.mem_of_find?_eq_some h, h2⟩

theorem indexSuffixes_head :
    ∀ suf ∈ indexSuffixes.map String.toList, suf.headI = '/' ∧ suf ≠ [] := by
  decide

theorem validPath_unpack {p : List Char} (h : validPath p = true) :
    (∃ t, p = '/' :: t) ∧ p.all isPathChar = true ∧ hasSlashDot p = false := by
  simp only [validPath, Bool.and_eq_true, decide_eq_true_eq, Bool.not_eq_true'] at h
  obtain ⟨⟨⟨h1, h2⟩, h3⟩, h4⟩ := h
  refine ⟨?_, h3, h4⟩
  cases p with
  | nil => exact absurd rfl h2
  | cons c t => exact ⟨t, by rw [show c = '/' from h1]⟩

theorem validPath_intro {p : List Char} (hs : ∃ t, p = '/' :: t)
    (hall : p.all isPathChar = true) (hsdp : hasSlashDot p = false) :
    validPath p = true := by
  obtain ⟨t, rfl⟩ := hs
  simp only [validPath, Bool.and_eq_true, decide_eq_true_eq, Bool.not_eq_true']
  exact ⟨⟨⟨rfl, by simp⟩, hall⟩, hsdp⟩

theorem all_take {q : Char → Bool} {l : List Char} (k : Nat) (h : l.all q = true) :
    (l.take k).all q = true := by
  rw [List.all_eq_true] at h ⊢
  exact fun c hc => h c (List.take_subset k l hc)

theorem all_dropLast {q : Char → Bool} {l : List Char} (h : l.all q = true) :
    l.dropLast.all q = true := by
  rw [List.all_eq_true] at h ⊢
  exact fun c hc => h c (List.dropLast_subset l hc)

theorem collapseIndexFile_facts {p1 : List Char} (hh : ∃ t1, p1 = '/' :: t1)
    (hall : p1.all isPathChar = true) (hdsl : hasDoubleSlash p1 = false)
    (hsdt : hasSlashDot p1 = false) :
    (∃ t2, collapseIndexFile p1 = '/' :: t2) ∧
      (collapseIndexFile p1).all isPathChar = true ∧
      hasDoubleSlash (collapseIndexFile p1) = false ∧
      hasSlashDot (collapseIndexFile p1) = false := by
  cases hf : findIndexSuffix p1 with
  | none =>
    have hred : collapseIndexFile p1 = p1 := by rw [collapseIndexFile, hf]
    rw [hred]
    exact ⟨hh, hall, hdsl, hsdt⟩
  | some suf =>
    have hred : collapseIndexFile p1 = p1.take (p1.length - suf.length) ++ ['/'] := by
      rw [collapseIndexFile, hf]
    rw [hred]
    obtain ⟨hmem, hsuf⟩ := findIndexSuffix_some hf
    obtain ⟨pre, hpre⟩ := isSuffixOf_suffix hsuf
    have hpl : pre.length = p1.length - suf.length := by
      have hlen := congrArg List.length hpre
      simp only [List.length_append, toLowerChars, List.length_map] at hlen
      omega
    have hdrop_lower : toLowerChars (p1.drop (p1.length - suf.length)) = suf := by
      rw [toLowerChars_drop, ← hpre, ← hpl, List.drop_left]
    obtain ⟨ts, hsufshape⟩ : ∃ ts, suf = '/' :: ts := by
      obtain ⟨hh1, hh2⟩ := indexSuffixes_head suf hmem
      cases suf with
      | nil => exact absurd rfl hh2
      | cons c t => exact ⟨t, by rw [show c = '/' from hh1]⟩
    obtain ⟨rs, hrs⟩ : ∃ rs, p1.drop (p1.length - suf.length) = '/' :: rs := by
      cases hd : p1.drop (p1.length - suf.length) with
      | nil =>
        rw [hd] at hdrop_lower
        rw [hsufshape] at hdrop_lower
        simp [toLowerChars] at hdrop_lower
      | cons c rs =>
        rw [hd, hsufshape] at hdrop_lower
        simp only [toLowerChars, List.map_cons, List.cons.injEq] at hdrop_lower
        exact ⟨rs, by rw [toLower_eq_slash hdrop_lower.1]⟩
    have hp1eq : p1 = p1.take (p1.length - suf.length) ++ '/' :: rs := by
      rw [← hrs]
      exact (List.take_append_drop (p1.length - suf.length) p1).symm
    have hdsl' : hasDoubleSlash (p1.take (p1.length - suf.length) ++ '/' :: rs) = false :=
      hp1eq ▸ hdsl
    have hsdt' : hasSlashDot (p1.take (p1.length - suf.length) ++ '/' :: rs) = false :=
      hp1eq ▸ hsdt
    have hqlast : (p1.take (p1.length - suf.length)).getLast? ≠ some '/' :=
      hds_no_last_slash hdsl'
    have hqds : hasDoubleSlash (p1.take (p1.length - suf.length)) = false :=
      hds_append_left hdsl'
    have hqsd : hasSlashDot (p1.take (p1.length - suf.length)) = false :=
      hsd_append_left hsdt'
    refine ⟨?_, ?_, hds_append_slash hqds hqlast, hsd_append_slash hqsd⟩
    · cases hq : p1.take (p1.length - suf.length) with
      | nil => exact ⟨[], rfl⟩
      | cons c qt =>
        obtain ⟨t1, ht1⟩ := hh
        have : '/' :: t1 = (c :: qt) ++ '/' :: rs := by
          rw [← ht1, ← hq]
          exact hp1eq
        rw [List.cons_append] at this
        obtain ⟨hc, _⟩ := List.cons.injEq _ _ _ _ ▸ this
        exact ⟨qt ++ ['/'], by rw [List.cons_append, hc]⟩
    · rw [List.all_append]
      refine Bool.and_eq_true_iff.mpr ⟨all_take _ hall, by decide⟩

/-! ### trailing-slash strip -/

theorem stripTrailingSlash_facts {p2 : List Char} (hh : ∃ t2, p2 = '/' :: t2)
    (hall : p2.all isPathChar = true) (hdsl : hasDoubleSlash p2 = false)
    (hsdt : hasSlashDot p2 = false) :
    (∃ t3, stripTrailingSlash p2 = '/' :: t3) ∧
      (stripTrailingSlash p2).all isPathChar = true ∧
      hasDoubleSlash (stripTrailingSlash p2) = false ∧
      hasSlashDot (stripTrailingSlash p2) = false ∧
      stripTrailingSlash (stripTrailingSlash p2) = stripTrailingSlash p2 := by
  by_cases hc1 : p2 = ['/']
  · subst hc1
    refine ⟨⟨[], rfl⟩, by decide, by decide, by decide, by decide⟩
  · by_cases hc2 : p2.getLast? = some '/'
    · have hcond : (decide ¬p2 = ['/'] && decide (p2.getLast? = some '/')) = true := by
        simp [hc1, hc2]
      have hred : stripTrailingSlash p2 = p2.dropLast := by
        rw [stripTrailingSlash, if_pos hcond]
      have hsplit : p2.dropLast ++ ['/'] = p2 :=
        List.dropLast_append_getLast? '/' (by rw [hc2]; rfl)
      have hqne : p2.dropLast ≠ [] := by
        intro he
        rw [he, List.nil_append] at hsplit
        exact hc1 hsplit.symm
      have hdsl2 : hasDoubleSlash (p2.dropLast ++ ['/']) = false := by
        rw [hsplit]
        exact hdsl
      have hlast : p2.dropLast.getLast? ≠ some '/' := by
        have : hasDoubleSlash (p2.dropLast ++ '/' :: []) = false := hdsl2
        exact hds_no_last_slash this
      have hshape : ∃ t3, p2.dropLast = '/' :: t3 := by
        obtain ⟨t2, ht2⟩ := hh
        cases hq : p2.dropLast with
        | nil => exact absurd hq hqne
        | cons c qt =>
          have : '/' :: t2 = (c :: qt) ++ ['/'] := by
            rw [← ht2, ← hq, hsplit]
          rw [List.cons_append] at this
          obtain ⟨hc, _⟩ := List.cons.injEq _ _ _ _ ▸ this
          exact ⟨qt, by rw [hc]⟩
      have hfix : stripTrailingSlash p2.dropLast = p2.dropLast := by
        rw [stripTrailingSlash]
        have : (decide ¬p2.dropLast = ['/'] && decide (p2.dropLast.getLast? = some '/')) =
            false := by
          simp [hlast]
        rw [this]
        rfl
      rw [hred]
      refine ⟨hshape, all_dropLast hall, ?_, ?_, hfix⟩
      · exact hds_append_left hdsl2
      · have : hasSlashDot (p2.dropLast ++ ['/']) = false := by
          rw [hsplit]
          exact hsdt
        exact hsd_append_left this
    · have hfix : stripTrailingSlash p2 = p2 := by
        rw [stripTrailingSlash]
        have : (decide ¬p2 = ['/'] && decide (p2.getLast? = some '/')) = false := by
          simp [hc2]
        rw [this]
        rfl
      rw [hfix]
      exact ⟨hh, hall, hdsl, hsdt, hfix⟩

/-! ### canonPath -/

theorem canonPath_facts {p : List Char} (hv : validPath p = true) :
    validPath (canonPath p) = true ∧ hasDoubleSlash (canonPath p) = false ∧
      stripTrailingSlash (canonPath p) = canonPath p := by
  obtain ⟨⟨t, rfl⟩, hall, hsdp⟩ := validPath_unpack hv
  have h1shape : collapseSlashes ('/' :: t) = '/' ::
      (if ('/' : Char) = '/' then collapseSlashesAux true t else collapseSlashesAux false t) :=
    collapseSlashesAux_false_cons '/' t
  have hp1shape : ∃ t1, collapseSlashes ('/' :: t) = '/' :: t1 := ⟨_, h1shape⟩
  have hp1all : (collapseSlashes ('/' :: t)).all isPathChar = true :=
    collapseSlashesAux_all (by decide) ('/' :: t) false hall
  have hp1ds : hasDoubleSlash (collapseSlashes ('/' :: t)) = false :=
    collapseSlashesAux_no_hds ('/' :: t) false
  have hp1sd : hasSlashDot (collapseSlashes ('/' :: t)) = false :=
    collapseSlashesAux_no_hsd ('/' :: t).length ('/' :: t) (Nat.le_refl _) hsdp
  obtain ⟨hp2shape, hp2all, hp2ds, hp2sd⟩ :=
    collapseIndexFile_facts hp1shape hp1all hp1ds hp1sd
  obtain ⟨hp3shape, hp3all, hp3ds, hp3sd, hp3fix⟩ :=
    stripTrailingSlash_facts hp2shape hp2all hp2ds hp2sd
  have hp3ne : stripTrailingSlash (collapseIndexFile (collapseSlashes ('/' :: t))) ≠ [] := by
    obtain ⟨t3, ht3⟩ := hp3shape
    rw [ht3]
    simp
  have hcp : canonPath ('/' :: t) =
      stripTrailingSlash (collapseIndexFile (collapseSlashes ('/' :: t))) := by
    rw [canonPath]
    rw [if_neg hp3ne]
  rw [hcp]
  exact ⟨validPath_intro hp3shape hp3all hp3sd, hp3ds, hp3fix⟩

theorem canonPath_fix {p : List Char} (hne : p ≠ []) (hds : hasDoubleSlash p = false)
    (hst : stripTrailingSlash p = p) (hidx : findIndexSuffix p = none) :
    canonPath p = p := by
  have h1 : collapseSlashes p = p := collapseSlashesAux_id p hds
  have h2 : collapseIndexFile p = p := by
    rw [collapseIndexFile, hidx]
  rw [canonPath]
  rw [h1, h2, hst, if_neg hne]

/-! ### parse/render roundtrip -/

theorem parseAfterScheme_roundtrip (https : Bool) (host : List Char) (port : Option Nat)
    (pathname : List Char) (hne : host ≠ []) (hhc : host.all isHostChar = true)
    (hvp : validPath pathname = true)
    (hport : match port with
      | none => True
      | some p => p ≤ 65535 ∧ ¬(https = true ∧ p = 443) ∧ ¬(https = false ∧ p = 80)) :
    parseAfterScheme https
      (host ++ ((match port with | none => [] | some p => ':' :: natDigits p) ++ pathname)) =
      some ⟨https, host, port, pathname, []⟩ := by
  obtain ⟨⟨pt, rfl⟩, hallp, hsdp⟩ := validPath_unpack hvp
  have hhostall : ∀ c ∈ host, (fun c => !isHostEnd c) c = true := by
    intro c hc
    have hc2 := List.all_eq_true.mp hhc c hc
    simp only [Bool.not_eq_true']
    exact isHostChar_not_host_end (by simpa using hc2)
  have hpathq : ∀ c ∈ '/' :: pt, (fun c => decide (c ≠ '?')) c = true := by
    intro c hc
    have hc2 := List.all_eq_true.mp hallp c hc
    have := (isPathChar_facts (by simpa using hc2)).2.2.2.1
    simpa using this
  have hsplit1 : splitPathQuery ('/' :: pt) = ('/' :: pt, []) := by
    rw [splitPathQuery]
    rw [takeWhile_eq_self_of_all hpathq, dropWhile_eq_nil_of_all hpathq]
    rfl
  cases port with
  | none =>
    show parseAfterScheme https (host ++ ([] ++ '/' :: pt)) = _
    rw [List.nil_append]
    have htake : (host ++ '/' :: pt).takeWhile (fun c => !isHostEnd c) = host := by
      rw [takeWhile_append_all _ hhostall, List.takeWhile_cons]
      simp [isHostEnd]
    have hdrop : (host ++ '/' :: pt).dropWhile (fun c => !isHostEnd c) = '/' :: pt := by
      rw [dropWhile_append_all _ hhostall]
      refine dropWhile_eq_self_of_head ?_
      intro c hc
      simp only [List.head?_cons, Option.mem_def, Option.some.injEq] at hc
      subst hc
      decide
    simp only [parseAfterScheme, htake, hdrop, toLowerChars_of_all_host hhc]
    have hguard : (decide (host = []) || !host.all isHostChar) = false := by
      simp [hne, hhc]
    rw [hguard]
    simp only [Bool.false_eq_true, if_false, hsplit1]
    rw [hvp]
    simp
  | some p =>
    obtain ⟨hp1, hp2, hp3⟩ := hport
    obtain ⟨hdg, hnn, hdigits⟩ := natDigits_spec p
    show parseAfterScheme https (host ++ ((':' :: natDigits p) ++ '/' :: pt)) = _
    rw [List.cons_append]
    have htake : (host ++ ':' :: (natDigits p ++ '/' :: pt)).takeWhile
        (fun c => !isHostEnd c) = host := by
      rw [takeWhile_append_all _ hhostall, List.takeWhile_cons]
      simp [isHostEnd]
    have hdrop : (host ++ ':' :: (natDigits p ++ '/' :: pt)).dropWhile
        (fun c => !isHostEnd c) = ':' :: (natDigits p ++ '/' :: pt) := by
      rw [dropWhile_append_all _ hhostall]
      refine dropWhile_eq_self_of_head ?_
      intro c hc
      simp only [List.head?_cons, Option.mem_def, Option.some.injEq] at hc
      subst hc
      decide
    simp only [parseAfterScheme, htake, hdrop, toLowerChars_of_all_host hhc]
    have hguard : (decide (host = []) || !host.all isHostChar) = false := by
      simp [hne, hhc]
    rw [hguard]
    simp only [Bool.false_eq_true, if_false]
    have hds : (natDigits p ++ '/' :: pt).takeWhile Char.isDigit = natDigits p := by
      rw [takeWhile_append_all _ (fun c hc => (hdigits c hc).1), List.takeWhile_cons]
      simp
    have hr3 : (natDigits p ++ '/' :: pt).dropWhile Char.isDigit = '/' :: pt := by
      rw [dropWhile_append_all _ (fun c hc => (hdigits c hc).1)]
      refine dropWhile_eq_self_of_head ?_
      intro c hc
      simp only [List.head?_cons, Option.mem_def, Option.some.injEq] at hc
      subst hc
      decide
    simp only [hds, hr3]
    have hpp : parsePort https (natDigits p) = some (some p) := by
      rw [parsePort, if_neg hnn, hdg, if_neg (by omega)]
      have hdef : ((https && decide (p = 443)) || (!https && decide (p = 80))) = false := by
        cases https with
        | true =>
          have : p ≠ 443 := fun he => hp2 ⟨rfl, he⟩
          simp [this]
        | false =>
          have : p ≠ 80 := fun he => hp3 ⟨rfl, he⟩
          simp [this]
      rw [if_neg (by simp [hdef] : ¬((https && decide (p = 443)) || (!https && decide (p = 80))) = true)]
    simp only [hpp, hsplit1]
    rw [hvp]
    simp

theorem renderUrl_no_search (v : UrlObj) (hsr : v.searchRaw = []) :
    renderUrl v = (if v.https then "https://".toList else "http://".toList) ++
      (v.host ++ (portChars v.port ++ v.pathname)) := by
  rw [renderUrl, hsr]
  cases v.port with
  | none => simp [portChars, List.append_assoc]
  | some p => simp [portChars, List.append_assoc]

theorem parseAfterScheme_roundtrip2 (https : Bool) (host : List Char) (port : Option Nat)
    (pathname : List Char) (hne : host ≠ []) (hhc : host.all isHostChar = true)
    (hvp : validPath pathname = true)
    (hport : match port with
      | none => True
      | some p => p ≤ 65535 ∧ ¬(https = true ∧ p = 443) ∧ ¬(https = false ∧ p = 80)) :
    parseAfterScheme https (host ++ (portChars port ++ pathname)) =
      some ⟨https, host, port, pathname, []⟩ := by
  cases port with
  | none => exact parseAfterScheme_roundtrip https host none pathname hne hhc hvp trivial
  | some p => exact parseAfterScheme_roundtrip https host (some p) pathname hne hhc hvp hport

theorem parseUrlString_roundtrip {v : UrlObj} (hne : v.host ≠ [])
    (hhc : v.host.all isHostChar = true) (hvp : validPath v.pathname = true)
    (hsr : v.searchRaw = [])
    (hport : match v.port with
      | none => True
      | some p => p ≤ 65535 ∧ ¬(v.https = true ∧ p = 443) ∧ ¬(v.https = false ∧ p = 80)) :
    parseUrlString (renderUrl v) = some v := by
  obtain ⟨https, host, port, pathname, searchRaw⟩ := v
  simp only at hne hhc hvp hsr hport
  subst hsr
  rw [renderUrl_no_search _ rfl]
  simp only
  cases https with
  | true =>
    rw [if_pos rfl, parseUrlString,
      if_pos (isPrefixOf_append "https://".toList _),
      show (8 : Nat) = ("https://".toList).length from rfl, List.drop_left]
    exact parseAfterScheme_roundtrip2 true host port pathname hne hhc hvp hport
  | false =>
    have hnotpre : "https://".toList.isPrefixOf ("http://".toList ++
        (host ++ (portChars port ++ pathname))) = false := by
      show (['h','t','t','p','s',':','/','/'] : List Char).isPrefixOf
        (['h','t','t','p',':','/','/'] ++ _) = false
      simp [List.isPrefixOf]
    rw [if_neg (by decide : ¬((false : Bool) = true)), parseUrlString]
    rw [hnotpre]
    simp only [Bool.false_eq_true, if_false]
    rw [if_pos (isPrefixOf_append "http://".toList _),
      show (7 : Nat) = ("http://".toList).length from rfl, List.drop_left]
    exact parseAfterScheme_roundtrip2 false host port pathname hne hhc hvp hport

/-! ### canonObj -/

theorem canonObj_explicit (bh : List Char) (fh : Bool) (u : UrlObj) :
    canonObj bh fh u =
      ⟨fh || u.https, toLowerChars (applyWwwPolicy bh u.host),
       if ((fh || u.https) = false ∧ u.port = some 80) ∨
          ((fh || u.https) = true ∧ u.port = some 443) then none else u.port,
       canonPath u.pathname, []⟩ := by
  obtain ⟨https, host, port, pathname, searchRaw⟩ := u
  rw [canonObj]
  cases fh <;> cases https <;> split_ifs <;> simp_all

theorem canonObj_port_none {bh : List Char} {fh : Bool} {u : UrlObj}
    (hp : u.port = none) : (canonObj bh fh u).port = none := by
  rw [canonObj_explicit]
  simp [hp]

theorem canonObj_port_inv (bh : List Char) (fh : Bool) (u : UrlObj)
    (hp : ∀ p, u.port = some p → p ≤ 65535) :
    ∀ p, (canonObj bh fh u).port = some p →
      p ≤ 65535 ∧ ¬((canonObj bh fh u).https = true ∧ p = 443) ∧
        ¬((canonObj bh fh u).https = false ∧ p = 80) := by
  intro p hp2
  have hhttps : (canonObj bh fh u).https = (fh || u.https) := by rw [canonObj_explicit]
  have hp3 : (if ((fh || u.https) = false ∧ u.port = some 80) ∨
      ((fh || u.https) = true ∧ u.port = some 443) then none else u.port) = some p := by
    rw [← hp2, canonObj_explicit]
  rw [hhttps]
  by_cases hc : ((fh || u.https) = false ∧ u.port = some 80) ∨
      ((fh || u.https) = true ∧ u.port = some 443)
  · rw [if_pos hc] at hp3
    exact absurd hp3 (by simp)
  · rw [if_neg hc] at hp3
    push_neg at hc
    obtain ⟨hc1, hc2⟩ := hc
    refine ⟨hp p hp3, ?_, ?_⟩
    · intro he
      obtain ⟨hh, he2⟩ := he
      subst he2
      exact hc2 hh (by rw [hp3])
    · intro he
      obtain ⟨hh, he2⟩ := he
      subst he2
      exact hc1 hh (by rw [hp3])

theorem canonObj_fixpoint {bh : List Char} {fh : Bool} {v : UrlObj}
    (hhttps : (fh || v.https) = v.https)
    (hport : ¬(((fh || v.https) = false ∧ v.port = some 80) ∨
      ((fh || v.https) = true ∧ v.port = some 443)))
    (hhost : toLowerChars (applyWwwPolicy bh v.host) = v.host)
    (hpath : canonPath v.pathname = v.pathname) (hsr : v.searchRaw = []) :
    canonObj bh fh v = v := by
  rw [canonObj_explicit, if_neg hport]
  obtain ⟨https, host, port, pathname, searchRaw⟩ := v
  simp_all

theorem canonObj_canonFacts {bh : List Char} (fh : Bool) {u : UrlObj}
    (hbne : bh ≠ []) (hbl : toLowerChars bh = bh) (hne : u.host ≠ [])
    (hall : u.host.all isHostChar = true) (hvp : validPath u.pathname = true)
    (hport : ∀ p, u.port = some p → p ≤ 65535) :
    (canonObj bh fh u).host ≠ [] ∧ (canonObj bh fh u).host.all isHostChar = true ∧
      toLowerChars (canonObj bh fh u).host = (canonObj bh fh u).host ∧
      applyWwwPolicy bh (canonObj bh fh u).host = (canonObj bh fh u).host ∧
      validPath (canonObj bh fh u).pathname = true ∧
      hasDoubleSlash (canonObj bh fh u).pathname = false ∧
      stripTrailingSlash (canonObj bh fh u).pathname = (canonObj bh fh u).pathname ∧
      (canonObj bh fh u).searchRaw = [] ∧
      (∀ p, (canonObj bh fh u).port = some p → p ≤ 65535 ∧
        ¬((canonObj bh fh u).https = true ∧ p = 443) ∧
        ¬((canonObj bh fh u).https = false ∧ p = 80)) ∧
      (fh || (canonObj bh fh u).https) = (canonObj bh fh u).https := by
  obtain ⟨hwne, hwall⟩ := applyWwwPolicy_host_ok hbne hbl hne hall
  have hwlow : toLowerChars (applyWwwPolicy bh u.host) = applyWwwPolicy bh u.host :=
    toLowerChars_of_all_host hwall
  have hhost : (canonObj bh fh u).host = toLowerChars (applyWwwPolicy bh u.host) := by
    rw [canonObj_explicit]
  have hpath : (canonObj bh fh u).pathname = canonPath u.pathname := by
    rw [canonObj_explicit]
  have hhttps : (canonObj bh fh u).https = (fh || u.https) := by
    rw [canonObj_explicit]
  obtain ⟨hcp1, hcp2, hcp3⟩ := canonPath_facts hvp
  refine ⟨?_, ?_, ?_, ?_, ?_, ?_, ?_, ?_, canonObj_port_inv bh fh u hport, ?_⟩
  · rw [hhost, hwlow]
    exact hwne
  · rw [hhost, hwlow]
    exact hwall
  · rw [hhost]
    exact toLowerChars_idem _
  · rw [hhost]
    exact applyWwwPolicy_idem bh u.host
  · rw [hpath]
    exact hcp1
  · rw [hpath]
    exact hcp2
  · rw [hpath]
    exact hcp3
  · rw [canonObj_explicit]
  · rw [hhttps]
    cases fh <;> simp

/-! ### renderUrl character inventory -/

theorem isWsChar_of_ge {c : Char} (h : 33 ≤ c.toNat) : isWsChar c = false := by
  cases hw : isWsChar c with
  | false => rfl
  | true =>
    rcases isWsChar_cases hw with rfl | rfl | rfl | rfl | rfl | rfl <;>
      exact absurd h (by decide)

theorem ne_hash_of_toNat {c : Char} (h : c.toNat ≠ 35) : c ≠ '#' := by
  intro he
  subst he
  exact h (by decide)

theorem renderUrl_chars {v : UrlObj} (hhc : v.host.all isHostChar = true)
    (hallp : v.pathname.all isPathChar = true) (hsr : v.searchRaw = []) :
    ∀ c ∈ renderUrl v, isWsChar c = false ∧ c ≠ '#' := by
  rw [renderUrl_no_search v hsr]
  intro c hc
  rcases List.mem_append.mp hc with hc | hc
  · have hscheme : ∀ x ∈ (if v.https then "https://".toList else "http://".toList),
        isWsChar x = false ∧ x ≠ '#' := by
      cases v.https <;> (intro x hx; revert hx; revert x; decide)
    exact hscheme c hc
  rcases List.mem_append.mp hc with hc | hc
  · have hx := List.all_eq_true.mp hhc c hc
    have hn := isHostChar_toNat (by simpa using hx)
    refine ⟨isWsChar_of_ge (by omega), ne_hash_of_toNat (by omega)⟩
  rcases List.mem_append.mp hc with hc | hc
  · cases hp : v.port with
    | none =>
      rw [hp] at hc
      simp [portChars] at hc
    | some p =>
      rw [hp] at hc
      simp only [portChars, List.mem_cons] at hc
      rcases hc with rfl | hc
      · exact ⟨by decide, by decide⟩
      · have := (natDigits_spec p).2.2 c hc
        refine ⟨isWsChar_of_ge (by omega), ne_hash_of_toNat (by omega)⟩
  · have hx := List.all_eq_true.mp hallp c hc
    have hf := isPathChar_facts (by simpa using hx)
    exact ⟨hf.2.2.2.2, hf.2.2.1⟩

theorem renderUrl_ne_nil (v : UrlObj) (hsr : v.searchRaw = []) : renderUrl v ≠ [] := by
  rw [renderUrl_no_search v hsr]
  cases v.https <;> simp

/-! ### pre-normalization identities on rendered URLs -/

theorem collapseProtoSlashes_concrete (letters : List Char) (R : List Char)
    (hl : letters ≠ []) (hla : ∀ c ∈ letters, c.isAlpha = true)
    (hR : ∀ c ∈ R.head?, c ≠ '/') :
    collapseProtoSlashes (letters ++ ':' :: '/' :: '/' :: R) =
      letters ++ ':' :: '/' :: '/' :: R := by
  have htw : (letters ++ ':' :: '/' :: '/' :: R).takeWhile Char.isAlpha = letters := by
    rw [takeWhile_append_all _ hla, List.takeWhile_cons]
    rw [show (':').isAlpha = false from by decide]
    simp
  have hdw : (letters ++ ':' :: '/' :: '/' :: R).dropWhile Char.isAlpha =
      ':' :: '/' :: '/' :: R := by
    rw [dropWhile_append_all _ hla]
    refine dropWhile_eq_self_of_head ?_
    intro c hc
    simp only [List.head?_cons, Option.mem_def, Option.some.injEq] at hc
    subst hc
    decide
  have hslR : R.takeWhile (fun c => decide (c = '/')) = [] := by
    cases hRc : R with
    | nil => rfl
    | cons c t =>
      rw [List.takeWhile_cons]
      have hcne : c ≠ '/' := hR c (by rw [hRc]; rfl)
      simp [hcne]
  have hdrR : R.dropWhile (fun c => decide (c = '/')) = R := by
    refine dropWhile_eq_self_of_head ?_
    intro c hc
    have hcne : c ≠ '/' := hR c hc
    simp [hcne]
  simp only [collapseProtoSlashes, htw, hdw]
  show (let slashes := ('/' :: '/' :: R).takeWhile (fun c => c = '/');
    if letters ≠ [] && slashes.length ≥ 2 then
      letters ++ [':', '/', '/'] ++ ('/' :: '/' :: R).dropWhile (fun c => c = '/')
    else letters ++ ':' :: '/' :: '/' :: R) = letters ++ ':' :: '/' :: '/' :: R
  have hsl : ('/' :: '/' :: R).takeWhile (fun c => decide (c = '/')) =
      '/' :: '/' :: R.takeWhile (fun c => decide (c = '/')) := by
    simp [List.takeWhile_cons]
  have hdr : ('/' :: '/' :: R).dropWhile (fun c => decide (c = '/')) = R := by
    simp [List.dropWhile_cons, hdrR]
  simp only [hsl, hslR, hdr]
  rw [if_pos (by simp [hl])]
  simp

theorem head_ne_slash_of_host {v : UrlObj} (hne : v.host ≠ [])
    (hhc : v.host.all isHostChar = true) :
    ∀ c ∈ (v.host ++ (portChars v.port ++ v.pathname)).head?, c ≠ '/' := by
  cases hh : v.host with
  | nil => exact absurd hh hne
  | cons a b =>
    intro c hc
    rw [List.cons_append] at hc
    simp only [List.head?_cons, Option.mem_def, Option.some.injEq] at hc
    have ha := List.all_eq_true.mp hhc a (by rw [hh]; exact List.mem_cons_self a b)
    rw [hc] at ha
    have hn := isHostChar_toNat (by simpa using ha)
    intro he
    have h47 := congrArg Char.toNat he
    rw [show ('/').toNat = 47 from by decide] at h47
    omega

theorem badSchemes_render {v : UrlObj} (hsr : v.searchRaw = []) :
    badSchemes.any (fun b => b.toList.isPrefixOf (toLowerChars (renderUrl v))) = false := by
  rw [renderUrl_no_search v hsr]
  cases hhttps : v.https with
  | true =>
    rw [if_pos rfl, toLowerChars_append,
      show toLowerChars "https://".toList = "https://".toList from by decide]
    show badSchemes.any (fun b => b.toList.isPrefixOf
      ((['h','t','t','p','s',':','/','/'] : List Char) ++
        toLowerChars (v.host ++ (portChars v.port ++ v.pathname)))) = false
    simp [badSchemes, List.isPrefixOf]
  | false =>
    rw [if_neg (by decide : ¬((false : Bool) = true)), toLowerChars_append,
      show toLowerChars "http://".toList = "http://".toList from by decide]
    show badSchemes.any (fun b => b.toList.isPrefixOf
      ((['h','t','t','p',':','/','/'] : List Char) ++
        toLowerChars (v.host ++ (portChars v.port ++ v.pathname)))) = false
    simp [badSchemes, List.isPrefixOf]

theorem collapseProtoSlashes_render {v : UrlObj} (hne : v.host ≠ [])
    (hhc : v.host.all isHostChar = true) (hsr : v.searchRaw = []) :
    collapseProtoSlashes (renderUrl v) = renderUrl v := by
  rw [renderUrl_no_search v hsr]
  have hR := head_ne_slash_of_host hne hhc
  cases v.https with
  | true =>
    rw [if_pos rfl]
    exact collapseProtoSlashes_concrete ['h','t','t','p','s'] _ (by simp) (by decide) hR
  | false =>
    rw [if_neg (by decide : ¬((false : Bool) = true))]
    exact collapseProtoSlashes_concrete ['h','t','t','p'] _ (by simp) (by decide) hR

theorem render_scheme_test {v : UrlObj} (hsr : v.searchRaw = []) :
    ("http://".toList.isPrefixOf (renderUrl v) ||
      "https://".toList.isPrefixOf (renderUrl v)) = true := by
  rw [renderUrl_no_search v hsr]
  cases v.https with
  | true =>
    rw [if_pos rfl]
    rw [show ("https://".toList ++ (v.host ++ (portChars v.port ++ v.pathname))) =
      "https://".toList ++ (v.host ++ (portChars v.port ++ v.pathname)) from rfl]
    rw [isPrefixOf_append "https://".toList]
    simp
  | false =>
    rw [if_neg (by decide : ¬((false : Bool) = true))]
    rw [isPrefixOf_append "http://".toList]
    simp

theorem port_match_of_forall {v : UrlObj}
    (hport : ∀ p, v.port = some p → p ≤ 65535 ∧ ¬(v.https = true ∧ p = 443) ∧
      ¬(v.https = false ∧ p = 80)) :
    match v.port with
    | none => True
    | some p => p ≤ 65535 ∧ ¬(v.https = true ∧ p = 443) ∧ ¬(v.https = false ∧ p = 80) := by
  cases hpp : v.port with
  | none => trivial
  | some p => exact hport p hpp

theorem canonicalizeUrlChars_render {o : NormalizeOptions} {v : UrlObj}
    (hne : v.host ≠ []) (hhc : v.host.all isHostChar = true)
    (hvp : validPath v.pathname = true) (hsr : v.searchRaw = [])
    (hport : ∀ p, v.port = some p → p ≤ 65535 ∧ ¬(v.https = true ∧ p = 443) ∧
      ¬(v.https = false ∧ p = 80)) :
    canonicalizeUrlChars o (renderUrl v) =
      some (renderUrl (canonObj o.baseUrl.host o.forceHttps v)) := by
  have hchars := renderUrl_chars hhc (validPath_unpack hvp).2.1 hsr
  have hrne : renderUrl v ≠ [] := renderUrl_ne_nil v hsr
  have htrim : trimChars (renderUrl v) = renderUrl v :=
    trimChars_eq_self (fun c hc => (hchars c hc).1)
  have hhash : (renderUrl v).takeWhile (fun c => decide (c ≠ '#')) = renderUrl v :=
    takeWhile_eq_self_of_all (fun c hc => by simpa using (hchars c hc).2)
  have hbad := badSchemes_render hsr
  have hcps := collapseProtoSlashes_render hne hhc hsr
  have hpre := render_scheme_test hsr
  have hrt := parseUrlString_roundtrip hne hhc hvp hsr (port_match_of_forall hport)
  rw [canonicalizeUrlChars]
  simp only [htrim, hhash]
  rw [if_neg hrne, if_neg hrne, hbad]
  simp only [Bool.false_eq_true, if_false]
  rw [hcps, hpre]
  simp only [if_true, hrt, Option.map_some']

/-! ### parsed objects are well-formed -/

theorem parsePort_facts {https : Bool} {ds : List Char} {port : Option Nat}
    (h : parsePort https ds = some port) :
    ∀ p, port = some p → p ≤ 65535 ∧ ¬(https = true ∧ p = 443) ∧
      ¬(https = false ∧ p = 80) := by
  rw [parsePort] at h
  split at h
  · obtain rfl : (none : Option Nat) = port := by simpa using h
    intro p hp
    simp at hp
  · dsimp only at h
    split at h
    · simp at h
    · split at h
      · obtain rfl : (none : Option Nat) = port := by simpa using h
        intro p hp
        simp at hp
      · obtain rfl : some (digitsToNat ds) = port := by simpa using h
        intro p hp
        obtain rfl : digitsToNat ds = p := by simpa using hp
        rename_i hle hdef
        refine ⟨by omega, ?_, ?_⟩
        · intro hh
          obtain ⟨hh1, hh2⟩ := hh
          subst hh1
          rw [hh2] at hdef
          simp at hdef
        · intro hh
          obtain ⟨hh1, hh2⟩ := hh
          subst hh1
          rw [hh2] at hdef
          simp at hdef

theorem parseAfterScheme_preInv {https : Bool} {s : List Char} {u : UrlObj}
    (h : parseAfterScheme https s = some u) : PreInv u := by
  rw [parseAfterScheme] at h
  dsimp only at h
  split at h
  · simp at h
  · rename_i hguard
    have hBfalse := Bool.eq_false_iff.mpr hguard
    obtain ⟨hg1, hg2⟩ := Bool.or_eq_false_iff.mp hBfalse
    have hhostne : toLowerChars (s.takeWhile (fun c => !isHostEnd c)) ≠ [] := by
      simpa using hg1
    have hgall : (toLowerChars (s.takeWhile (fun c => !isHostEnd c))).all isHostChar = true := by
      simpa using hg2
    split at h
    · split at h
      · simp at h
      · rename_i port hpp
        split at h
        · rw [Option.some.injEq] at h
          subst h
          exact ⟨hhostne, hgall, show validPath ['/'] = true from by decide, parsePort_facts hpp⟩
        · split at h
          · rw [Option.some.injEq] at h
            subst h
            exact ⟨hhostne, hgall, show validPath ['/'] = true from by decide, parsePort_facts hpp⟩
          · simp at h
        · split at h
          · rename_i hpq
            rw [Option.some.injEq] at h
            subst h
            rw [Bool.and_eq_true] at hpq
            exact ⟨hhostne, hgall, hpq.1, parsePort_facts hpp⟩
          · simp at h
        · simp at h
    · split at h
      · rw [Option.some.injEq] at h
        subst h
        refine ⟨hhostne, hgall, show validPath ['/'] = true from by decide, ?_⟩
        intro p hp
        simp at hp
      · simp at h
    · split at h
      · rename_i hpq
        rw [Option.some.injEq] at h
        subst h
        rw [Bool.and_eq_true] at hpq
        refine ⟨hhostne, hgall, hpq.1, ?_⟩
        intro p hp
        simp at hp
      · simp at h
    · rw [Option.some.injEq] at h
      subst h
      refine ⟨hhostne, hgall, show validPath ['/'] = true from by decide, ?_⟩
      intro p hp
      simp at hp
    · simp at h

theorem parseUrlString_preInv {s : List Char} {u : UrlObj}
    (h : parseUrlString s = some u) : PreInv u := by
  rw [parseUrlString] at h
  split at h
  · exact parseAfterScheme_preInv h
  · split at h
    · exact parseAfterScheme_preInv h
    · simp at h

theorem validBase_unpack {u : UrlObj} (h : validBase u = true) :
    u.host ≠ [] ∧ u.host.all isHostChar = true ∧ toLowerChars u.host = u.host ∧
      validPath u.pathname = true ∧
      ∀ p, u.port = some p → p ≤ 65535 ∧ ¬(u.https = true ∧ p = 443) ∧
        ¬(u.https = false ∧ p = 80) := by
  rw [validBase] at h
  simp only [Bool.and_eq_true, decide_eq_true_eq] at h
  obtain ⟨⟨⟨⟨h1, h2⟩, h3⟩, h4⟩, h5⟩ := h
  refine ⟨h1, h2, h3, h4, ?_⟩
  intro p hp
  rw [hp] at h5
  simp only [Bool.and_eq_true, decide_eq_true_eq, Bool.not_eq_true'] at h5
  obtain ⟨⟨hp1, hp2⟩, hp3⟩ := h5
  refine ⟨hp1, ?_, ?_⟩
  · intro hh
    obtain ⟨hh1, hh2⟩ := hh
    rw [hh1] at hp2
    simp [hh2] at hp2
  · intro hh
    obtain ⟨hh1, hh2⟩ := hh
    rw [hh1] at hp3
    simp [hh2] at hp3

theorem resolveRootRelative_preInv {base : UrlObj} {s : List Char} {u : UrlObj}
    (hb : validBase base = true) (h : resolveRootRelative base s = some u) : PreInv u := by
  obtain ⟨hb1, hb2, hb3, hb4, hb5⟩ := validBase_unpack hb
  rw [resolveRootRelative] at h
  split at h
  · rename_i hpq
    rw [Option.some.injEq] at h
    subst h
    rw [Bool.and_eq_true] at hpq
    exact ⟨hb1, hb2, hpq.1, hb5⟩
  · simp at h

theorem resolveRelative_preInv {base : UrlObj} {s : List Char} {u : UrlObj}
    (hb : validBase base = true) (h : resolveRelative base s = some u) : PreInv u := by
  obtain ⟨hb1, hb2, hb3, hb4, hb5⟩ := validBase_unpack hb
  rw [resolveRelative] at h
  dsimp only at h
  split at h
  · exact parseUrlString_preInv h
  · split at h
    · split at h
      · rw [Option.some.injEq] at h
        subst h
        exact ⟨hb1, hb2, hb4, hb5⟩
      · simp at h
    · split at h
      · rename_i hpq
        rw [Option.some.injEq] at h
        subst h
        rw [Bool.and_eq_true] at hpq
        exact ⟨hb1, hb2, hpq.1, hb5⟩
      · simp at h

/-! ### shape of canonicalization results -/

theorem canonicalizeUrlChars_shape {o : NormalizeOptions} {s : List Char} {out : List Char}
    (hb : validBase o.baseUrl = true) (h : canonicalizeUrlChars o s = some out) :
    ∃ u0, PreInv u0 ∧ out = renderUrl (canonObj o.baseUrl.host o.forceHttps u0) := by
  rw [canonicalizeUrlChars] at h
  dsimp only at h
  split at h
  · simp at h
  · split at h
    · simp at h
    · split at h
      · simp at h
      · rw [Option.map_eq_some'] at h
        obtain ⟨u0, hobj, hout⟩ := h
        refine ⟨u0, ?_, hout.symm⟩
        split at hobj
        · exact parseUrlString_preInv hobj
        · split at hobj
          · exact parseUrlString_preInv hobj
          · split at hobj
            · exact resolveRootRelative_preInv hb hobj
            · exact resolveRelative_preInv hb hobj

/-- C2 (amended): `canonicalizeUrl` is idempotent on every canonical result
that does not still carry an index-document suffix in its path: if the
options' base URL is a well-formed parsed URL and `canonicalizeUrl u o`
returns `some c` with `hasStackedIndexSuffix c = false`, then
`canonicalizeUrl c o = some c`.  (The unrestricted claim is refuted by
`c2_counterexample_stacked_index`.) -/
theorem c2_canonicalize_idempotent_amended (u c : String) (o : NormalizeOptions)
    (hb : validBase o.baseUrl = true) (h : canonicalizeUrl u o = some c)
    (hs : hasStackedIndexSuffix c = false) : canonicalizeUrl c o = some c := by
  rw [canonicalizeUrl, Option.map_eq_some'] at h
  obtain ⟨l, hl, hc⟩ := h
  obtain ⟨u0, hpre, hout⟩ := canonicalizeUrlChars_shape hb hl
  obtain ⟨hb1, hb2, hb3, hb4, hb5⟩ := validBase_unpack hb
  obtain ⟨hp1, hp2, hp3, hp4⟩ := hpre
  obtain ⟨hv1, hv2, hv3, hv4, hv5, hv6, hv7, hv8, hv9, hv10⟩ :=
    canonObj_canonFacts o.forceHttps hb1 hb3 hp1 hp2 hp3 (fun p hp => (hp4 p hp).1)
  subst hc
  subst hout
  rw [hasStackedIndexSuffix] at hs
  have hrt : parseUrlString (renderUrl (canonObj o.baseUrl.host o.forceHttps u0)) =
      some (canonObj o.baseUrl.host o.forceHttps u0) :=
    parseUrlString_roundtrip hv1 hv2 hv5 hv8 (port_match_of_forall hv9)
  rw [show (String.mk (renderUrl (canonObj o.baseUrl.host o.forceHttps u0))).toList =
    renderUrl (canonObj o.baseUrl.host o.forceHttps u0) from rfl, hrt] at hs
  have hs2 : (findIndexSuffix (canonObj o.baseUrl.host o.forceHttps u0).pathname).isSome =
      false := hs
  have hidx : findIndexSuffix (canonObj o.baseUrl.host o.forceHttps u0).pathname = none := by
    cases hfi : findIndexSuffix (canonObj o.baseUrl.host o.forceHttps u0).pathname with
    | none => rfl
    | some x =>
      rw [hfi] at hs2
      simp at hs2
  have hvp_ne : (canonObj o.baseUrl.host o.forceHttps u0).pathname ≠ [] := by
    obtain ⟨⟨t, ht⟩, _, _⟩ := validPath_unpack hv5
    rw [ht]
    simp
  have hpathfix : canonPath (canonObj o.baseUrl.host o.forceHttps u0).pathname =
      (canonObj o.baseUrl.host o.forceHttps u0).pathname :=
    canonPath_fix hvp_ne hv6 hv7 hidx
  have hportfix : ¬(((o.forceHttps || (canonObj o.baseUrl.host o.forceHttps u0).https) =
        false ∧ (canonObj o.baseUrl.host o.forceHttps u0).port = some 80) ∨
      ((o.forceHttps || (canonObj o.baseUrl.host o.forceHttps u0).https) = true ∧
        (canonObj o.baseUrl.host o.forceHttps u0).port = some 443)) := by
    rw [hv10]
    rintro (⟨hh, hp⟩ | ⟨hh, hp⟩)
    · exact (hv9 80 hp).2.2 ⟨hh, rfl⟩
    · exact (hv9 443 hp).2.1 ⟨hh, rfl⟩
  have hv4' : toLowerChars (applyWwwPolicy o.baseUrl.host
      (canonObj o.baseUrl.host o.forceHttps u0).host) =
      (canonObj o.baseUrl.host o.forceHttps u0).host := by
    rw [hv4, hv3]
  have hfix : canonObj o.baseUrl.host o.forceHttps
      (canonObj o.baseUrl.host o.forceHttps u0) = canonObj o.baseUrl.host o.forceHttps u0 :=
    canonObj_fixpoint hv10 hportfix hv4' hpathfix hv8
  rw [canonicalizeUrl]
  rw [show (String.mk (renderUrl (canonObj o.baseUrl.host o.forceHttps u0))).toList =
    renderUrl (canonObj o.baseUrl.host o.forceHttps u0) from rfl]
  rw [canonicalizeUrlChars_render hv1 hv2 hv5 hv8 hv9, hfix]
  rfl

/-! ### host preservation for foreign hosts -/

theorem applyWwwPolicy_strip_fixed {bh h : List Char} (hl : toLowerChars h = h)
    (hs : stripWww h = h) :
    stripWww (toLowerChars (applyWwwPolicy bh h)) = h := by
  simp only [applyWwwPolicy, hl]
  by_cases hEq : stripWww (toLowerChars bh) = stripWww h
  · rw [if_pos hEq]
    by_cases hB : "www.".toList.isPrefixOf (toLowerChars bh) = true
    · rw [if_pos hB]
      by_cases hU : "www.".toList.isPrefixOf h = true
      · rw [if_pos hU, hl]
        exact hs
      · rw [if_neg hU, hs]
        have hlw : toLowerChars ("www.".toList ++ h) = "www.".toList ++ h := by
          rw [toLowerChars_append, hl,
            show toLowerChars "www.".toList = "www.".toList from by decide]
        rw [hlw]
        exact stripWww_www_append h
    · rw [if_neg hB]
      by_cases hU : "www.".toList.isPrefixOf h = true
      · rw [if_pos hU, hs, hl]
        exact hs
      · rw [if_neg hU, hl]
        exact hs
  · rw [if_neg hEq, hl]
    exact hs

theorem shouldCrawlUrl_diff_host (url base : String) (o : NormalizeOptions) (u0 : UrlObj)
    (hb : validBase o.baseUrl = true) (hurl : url.toList = renderUrl u0)
    (hp1 : u0.host ≠ []) (hp2 : u0.host.all isHostChar = true)
    (hp3 : validPath u0.pathname = true) (hsr : u0.searchRaw = [])
    (hport : ∀ p, u0.port = some p → p ≤ 65535 ∧ ¬(u0.https = true ∧ p = 443) ∧
      ¬(u0.https = false ∧ p = 80))
    (hl0 : toLowerChars u0.host = u0.host) (hs0 : stripWww u0.host = u0.host)
    (hdiff : stripWww (toLowerChars base.toList) ≠ u0.host) :
    shouldCrawlUrl url base o = false := by
  obtain ⟨hb1, hb2, hb3, hb4, hb5⟩ := validBase_unpack hb
  obtain ⟨hv1, hv2, hv3, hv4, hv5, hv6, hv7, hv8, hv9, hv10⟩ :=
    canonObj_canonFacts o.forceHttps hb1 hb3 hp1 hp2 hp3 (fun p hp => (hport p hp).1)
  have hcanon : canonicalizeUrl url o =
      some (String.mk (renderUrl (canonObj o.baseUrl.host o.forceHttps u0))) := by
    rw [canonicalizeUrl, hurl, canonicalizeUrlChars_render hp1 hp2 hp3 hsr hport]
    rfl
  have hrt : parseUrlString (String.mk (renderUrl
      (canonObj o.baseUrl.host o.forceHttps u0))).toList =
      some (canonObj o.baseUrl.host o.forceHttps u0) :=
    parseUrlString_roundtrip hv1 hv2 hv5 hv8 (port_match_of_forall hv9)
  have hstrip : stripWww (toLowerChars (canonObj o.baseUrl.host o.forceHttps u0).host) =
      u0.host := by
    rw [hv3]
    have hhost : (canonObj o.baseUrl.host o.forceHttps u0).host =
        toLowerChars (applyWwwPolicy o.baseUrl.host u0.host) := by
      rw [canonObj_explicit]
    rw [hhost]
    exact applyWwwPolicy_strip_fixed hl0 hs0
  rw [shouldCrawlUrl, hcanon]
  show (match parseUrlString (String.mk (renderUrl
      (canonObj o.baseUrl.host o.forceHttps u0))).toList with
    | none => false
    | some urlObj =>
      if stripWww (toLowerChars urlObj.host) ≠ stripWww (toLowerChars base.toList) then false
      else !(skipExtensions.any
        (fun e => e.toList.isSuffixOf (toLowerChars urlObj.pathname)))) = false
  rw [hrt]
  show (if stripWww (toLowerChars (canonObj o.baseUrl.host o.forceHttps u0).host) ≠
      stripWww (toLowerChars base.toList) then false
    else !(skipExtensions.any (fun e => e.toList.isSuffixOf
      (toLowerChars (canonObj o.baseUrl.host o.forceHttps u0).pathname)))) = false
  rw [if_pos]
  rw [hstrip]
  exact fun he => hdiff he.symm

theorem isSafeUrl_private_hosts (u : UrlObj)
    (h : u.host = "169.254.169.254".toList ∨ u.host = "localhost".toList ∨
      u.host = "10.0.0.5".toList) : isSafeUrl u = false := by
  rw [isSafeUrl]
  rcases h with h | h | h <;> rw [h] <;> decide

/-! # Claim theorems -/

/-- The url-set entries of a document with no index entries and no
aggressive-fallback entries are exactly its trimmed nonempty `<loc>`
texts. -/
theorem sitemapUrlSetEntries_no_any (us : List String) :
    sitemapUrlSetEntries ⟨[], us, []⟩ = trimmedNonemptyLocs us := by
  unfold sitemapUrlSetEntries trimmedNonemptyLocs
  by_cases h : ((us.map jsTrim).filter (fun t => t ≠ "")) = [] <;> simp [h]

/-- C3: `canonicalizeUrl` applies the site's `www` policy exactly when the
candidate's host equals the base host after ignoring a leading `www.`: with
the options every crawler derives from the base `https://example.com`,
`http://www.example.com/a/`, `https://example.com/a` and
`https://WWW.EXAMPLE.com/a/index.html` all canonicalize to the identical
string, while `https://blog.example.com/x` keeps its hostname unchanged. -/
theorem c3_canonicalize_www_policy :
    canonicalizeUrl "http://www.example.com/a/" exampleComOptions =
      some "https://example.com/a" ∧
    canonicalizeUrl "https://example.com/a" exampleComOptions =
      some "https://example.com/a" ∧
    canonicalizeUrl "https://WWW.EXAMPLE.com/a/index.html" exampleComOptions =
      some "https://example.com/a" ∧
    canonicalizeUrl "https://blog.example.com/x" exampleComOptions =
      some "https://blog.example.com/x" := by
  decide

/-- C6: `parseSitemap` terminates on every sitemap tree: the depth bound
`MAX_SITEMAP_DEPTH = 10` is at least 8; a revisited sitemap URL returns an
empty list for that branch; any branch past the depth bound returns an empty
list; and a sitemap index whose first child is itself resolves and returns
the non-cyclic child's URLs exactly once. -/
theorem c6_sitemap_cycle_and_depth_guards :
    MAX_SITEMAP_DEPTH ≥ 8 ∧
    (∀ (env : SitemapEnv) (fuel : Nat) (vs : List String) (url : String) (depth : Nat),
      fetchSitemap env (fuel + 1) (url :: vs) url depth = (url :: vs, .ok [])) ∧
    (∀ (env : SitemapEnv) (fuel : Nat) (vs : List String) (url : String) (k : Nat),
      fetchSitemap env (fuel + 1) vs url (MAX_SITEMAP_DEPTH + 1 + k) = (vs, .ok [])) ∧
    (∀ us : List String,
      parseSitemap (sitemapCycleEnv us) "https://example.com/sitemap.xml" =
        .ok (trimmedNonemptyLocs us)) := by
  refine ⟨by decide, ?_, ?_, ?_⟩
  · intro env fuel vs url depth
    simp [fetchSitemap]
  · intro env fuel vs url k
    have hd : MAX_SITEMAP_DEPTH + 1 + k > MAX_SITEMAP_DEPTH := by omega
    by_cases h : url ∈ vs <;> simp [fetchSitemap, h, hd]
  · intro us
    have h : parseSitemap (sitemapCycleEnv us) "https://example.com/sitemap.xml" =
        .ok (sitemapUrlSetEntries ⟨[], us, []⟩) := rfl
    rw [h, sitemapUrlSetEntries_no_any]

/-- C7 counterexample: in a crawl whose sitemap index has five children of
which two answer HTTP 500 on every attempt, the sitemap resolution succeeds
with the three surviving URLs, but `statistics.crawlErrors` is empty — the
claim's "one entry per failed child (2 entries in that scenario)" is false:
child failures are only logged to the console, never recorded. -/
theorem c7_counterexample_no_error_entries :
    parseSitemap partialFailureCrawlEnv.sitemap "https://example.com/sitemap.xml" =
      .ok ["https://example.com/u3", "https://example.com/u4", "https://example.com/u5"] ∧
    crawlWebsiteHttp partialFailureCrawlEnv "https://example.com" ⟨10, 5⟩ 50 =
      .ok ([], ⟨true, some "https://example.com/sitemap.xml", 3, 0, 4, 0, []⟩) := by
  constructor
  · decide
  · decide

/-- C7 as amended: when 2 of 5 child sitemaps fail, the URLs of the three
surviving siblings are all present in the resolved URL list (in order), and
the crawl's statistics error list gains no entry for the failed children —
`crawlErrors` records only a failure of the sitemap resolution as a whole,
child failures being logged and skipped. -/
theorem c7_sibling_failure_isolation :
    (∀ u3 u4 u5 : List String,
      parseSitemap (sitemapPartialEnv u3 u4 u5) "https://example.com/sitemap.xml" =
        .ok (trimmedNonemptyLocs u3 ++ trimmedNonemptyLocs u4 ++ trimmedNonemptyLocs u5)) ∧
    (crawlWebsiteHttp partialFailureCrawlEnv "https://example.com" ⟨10, 5⟩ 50).map
        (fun r => r.2.crawlErrors) = .ok [] := by
  constructor
  · intro u3 u4 u5
    have h : parseSitemap (sitemapPartialEnv u3 u4 u5) "https://example.com/sitemap.xml" =
        .ok ((sitemapUrlSetEntries ⟨[], u3, []⟩ ++ sitemapUrlSetEntries ⟨[], u4, []⟩) ++
          sitemapUrlSetEntries ⟨[], u5, []⟩) := rfl
    rw [h, sitemapUrlSetEntries_no_any, sitemapUrlSetEntries_no_any,
      sitemapUrlSetEntries_no_any, List.append_assoc]
  · decide

/-- C5 (code bug): the root guarantee fails in the multi-source HTTP
crawler.  With a sitemap listing one page and every fetch succeeding
(including the root, which answers 200 without redirecting), the canonical
root is admitted to the queue front, yet the returned pages list is empty:
each queued URL was marked visited at admission, so the drain loop's
`!visited.has(canonicalUrl)` check discards its own fetch result.  The root
page is never part of `pages`, contradicting the claim and the source's own
comment `Always crawl the root page, even if not in sitemap`. -/
theorem c5_root_page_dropped_despite_success :
    crawlWebsiteHttp rootGuaranteeCrawlEnv "https://example.com" ⟨5, 5⟩ 50 =
      .ok ([], ⟨true, some "https://example.com/sitemap.xml", 1, 0, 2, 0, []⟩) ∧
    rootGuaranteeCrawlEnv.fetchPage "https://example.com/" =
      some ⟨"https://example.com/", "<html>page</html>", 200⟩ := by
  constructor
  · decide
  · decide

/-- C9 (code bug): the empty-result last resort never runs when the root was
previously admitted to the queue.  In a browser crawl with no sitemap where
every rendered load fails but the root answers 200 over plain HTTP, the
crawl returns an empty pages list: the last-resort guard
`results.length === 0 && !visited.has(canonicalBase)` is always false after
seeding (the root is added to the visited set at admission), so the final
direct attempt the claim promises is skipped. -/
theorem c9_last_resort_skipped_after_root_failure :
    crawlWebsiteBrowser emptyResultBrowserEnv "https://example.com" ⟨5, 5⟩ 50 =
      .ok ([], ⟨false, none, 0, 0, 1, 0, ["Failed to load https://example.com/"]⟩) ∧
    emptyResultBrowserEnv.httpGet "https://example.com/" =
      .ok ⟨"https://example.com/", "<html>root</html>", 200, true⟩ := by
  constructor
  · decide
  · decide

/-- C8 counterexample: `shouldCrawlUrl` does not return false on the
metadata endpoint for every site host and options — when the site host is
the private address itself, the URL passes the same-host and extension
checks and `shouldCrawlUrl` returns true.  The private-network refusal lives
only in the crawlers' separate `isSafeUrl` guard. -/
theorem c8_counterexample_self_host_crawlable :
    shouldCrawlUrl "http://169.254.169.254/" "169.254.169.254"
      (selfHostOptions "169.254.169.254") = true := by
  decide
theorem processFetched_inv (env : HttpCrawlEnv) (o : NormalizeOptions) (hostname : String)
    (maxPages : Nat) (s : CrawlState) (item : String × Option CrawledPage)
    (h : HttpInv maxPages s) :
    HttpInv maxPages (processFetched env o hostname maxPages s item) := by
  obtain ⟨h1, h2, h3, h4⟩ := h
  unfold processFetched
  split
  · exact ⟨h1, h2, h3, h4⟩
  · rename_i page
    split
    · exact ⟨h1, h2, h3, h4⟩
    · rename_i cu hcu
      split
      · rename_i hfresh
        obtain ⟨hnv, hlt⟩ := hfresh
        have hcu_not : cu ∉ resultUrls s.results := by
          intro hmem
          obtain ⟨r, hr, hru⟩ := List.mem_map.mp hmem
          exact hnv (hru ▸ h2 r hr)
        have hcu2 : ∀ x ∈ s.results, ¬x.url = cu :=
          fun x hx hxe => hcu_not (List.mem_map.mpr ⟨x, hx, hxe⟩)
        dsimp only
        split
        · refine ⟨?_, ?_, ?_, ?_⟩
          · simpa [resultUrls, List.nodup_append] using ⟨h1, hcu2⟩
          · intro r hr
            rcases List.mem_append.mp hr with hr1 | hr2
            · exact List.mem_append.mpr (Or.inl (h2 r hr1))
            · simp at hr2
              subst hr2
              simp
          · simpa using hlt
          · simp [h4]
        · refine ⟨?_, ?_, ?_, ?_⟩
          · simpa [resultUrls, List.nodup_append] using ⟨h1, hcu2⟩
          · intro r hr
            rcases List.mem_append.mp hr with hr1 | hr2
            · exact List.mem_append.mpr (Or.inl (h2 r hr1))
            · simp at hr2
              subst hr2
              simp
          · simpa using hlt
          · simp [h4]
      · exact ⟨h1, h2, h3, h4⟩

theorem foldl_state_inv {α : Type} (P : CrawlState → Prop) (f : CrawlState → α → CrawlState)
    (hf : ∀ s a, P s → P (f s a)) : ∀ (l : List α) (s : CrawlState), P s → P (l.foldl f s)
  | [], _, h => h
  | a :: rest, s, h => foldl_state_inv P f hf rest (f s a) (hf s a h)

theorem httpDrainLoop_inv (env : HttpCrawlEnv) (o : NormalizeOptions) (hostname : String)
    (maxPages maxConcurrent : Nat) :
    ∀ (fuel : Nat) (s : CrawlState), HttpInv maxPages s →
      HttpInv maxPages (httpDrainLoop env o hostname maxPages maxConcurrent fuel s) := by
  intro fuel
  induction fuel with
  | zero => exact fun s h => h
  | succ n ih =>
    intro s h
    unfold httpDrainLoop
    split
    · exact h
    · dsimp only
      have h1 : HttpInv maxPages
          (List.foldl (fun st url => processFetched env o hostname maxPages st (url, env.fetchPage url))
            { s with queue := s.queue.drop (min maxConcurrent (min s.queue.length (maxPages - s.results.length))) }
            (s.queue.take (min maxConcurrent (min s.queue.length (maxPages - s.results.length))))) := by
        apply foldl_state_inv _ _ (fun st url hst => processFetched_inv env o hostname maxPages st _ hst)
        exact h
      split
      · exact h1
      · split
        · exact ih _ h1
        · exact ih _ h1


theorem httpCrawl_inv_main (env : HttpCrawlEnv) (o : NormalizeOptions) (hostname : String)
    (maxPages maxConcurrent fuel : Nat) (v q : List String) (st : CrawlStatistics)
    (h0 : st.totalCrawled = 0) :
    (resultUrls (httpDrainLoop env o hostname maxPages maxConcurrent fuel ⟨v, q, [], st⟩).results).Nodup ∧
    (httpDrainLoop env o hostname maxPages maxConcurrent fuel ⟨v, q, [], st⟩).results.length ≤ maxPages ∧
    (httpDrainLoop env o hostname maxPages maxConcurrent fuel ⟨v, q, [], st⟩).stats.totalCrawled =
      (httpDrainLoop env o hostname maxPages maxConcurrent fuel ⟨v, q, [], st⟩).results.length := by
  have h := httpDrainLoop_inv env o hostname maxPages maxConcurrent fuel ⟨v, q, [], st⟩
    ⟨by simp [resultUrls], by simp, by simp, by simpa using h0⟩
  exact ⟨h.1, h.2.2.1, h.2.2.2⟩

theorem crawlWebsiteHttp_ok_facts (env : HttpCrawlEnv) (rootUrl : String)
    (options : CrawlOptions) (fuel : Nat) (pages : List CrawledPage) (stats : CrawlStatistics)
    (h : crawlWebsiteHttp env rootUrl options fuel = .ok (pages, stats)) :
    (resultUrls pages).Nodup ∧ pages.length ≤ options.maxPages ∧
      stats.totalCrawled = pages.length := by
  unfold crawlWebsiteHttp at h
  split at h
  · exact absurd h (by simp)
  · rename_i baseUrl hv
    dsimp only at h
    rw [Except.ok.injEq, Prod.mk.injEq] at h
    obtain ⟨hp, hs⟩ := h
    subst hp
    subst hs
    refine (fun H => ⟨H.1, H.2.1, H.2.2⟩) (httpCrawl_inv_main _ _ _ _ _ _ _ _ _ ?_)
    cases hd : env.discoveredSitemap with
    | none => simp
    | some smUrl =>
      cases hps : parseSitemap env.sitemap smUrl with
      | error msg => simp [hps]
      | ok sitemapUrls => simp [hps]

theorem browserDrainLoop_inv (env : BrowserCrawlEnv) (o : NormalizeOptions) (hostname : String)
    (maxPages : Nat) (usp : Bool) (base : String) :
    ∀ (fuel : Nat) (s : CrawlState), BrowserInv maxPages base s →
      BrowserInv maxPages base (browserDrainLoop env o hostname maxPages usp fuel s) := by
  intro fuel
  induction fuel with
  | zero => exact fun s h => h
  | succ n ih =>
    intro s h
    obtain ⟨h1, h2, h3, h4, h5⟩ := h
    unfold browserDrainLoop
    split
    · exact ⟨h1, h2, h3, h4, h5⟩
    · rename_i hcond
      have hroomTop : s.results.length < maxPages := by
        rcases Nat.lt_or_ge s.results.length maxPages with hlt | hge
        · exact hlt
        · exact absurd (Or.inr hge) hcond
      split
      · exact ⟨h1, h2, h3, h4, h5⟩
      · rename_i currentUrl qrest hq
        dsimp only
        split
        · exact ih _ ⟨h1, h2, h3, h4, h5⟩
        · rename_i crawledPage hload
          split
          · exact ih _ ⟨h1, h2, h3, h4, h5⟩
          · rename_i cu hcu
            apply ih
            split
            · rename_i hfresh
              have hcu2 : ∀ x ∈ s.results, ¬x.url = cu :=
                fun x hx hxe => hfresh (hxe ▸ h2 x hx)
              split
              · rename_i hroom
                split
                · refine ⟨?_, ?_, ?_, ?_, ?_⟩
                  · simpa [resultUrls, List.nodup_append] using ⟨h1, hcu2⟩
                  · intro r hr
                    rcases List.mem_append.mp hr with hr1 | hr2
                    · exact List.mem_append.mpr (Or.inl (h2 r hr1))
                    · simp at hr2; subst hr2; simp
                  · simpa using Nat.le_of_lt hroom.1
                  · simp [h4]
                  · exact List.mem_append.mpr (Or.inl h5)
                · refine ⟨?_, ?_, ?_, ?_, ?_⟩
                  · simpa [resultUrls, List.nodup_append] using ⟨h1, hcu2⟩
                  · intro r hr
                    rcases List.mem_append.mp hr with hr1 | hr2
                    · exact List.mem_append.mpr (Or.inl (h2 r hr1))
                    · simp at hr2; subst hr2; simp
                  · simpa using Nat.le_of_lt hroom.1
                  · simp [h4]
                  · exact List.mem_append.mpr (Or.inl h5)
              · rename_i hnoroom
                have hle : s.results.length + 1 ≤ maxPages := hroomTop
                refine ⟨?_, ?_, ?_, ?_, ?_⟩
                · simpa [resultUrls, List.nodup_append] using ⟨h1, hcu2⟩
                · intro r hr
                  rcases List.mem_append.mp hr with hr1 | hr2
                  · exact List.mem_append.mpr (Or.inl (h2 r hr1))
                  · simp at hr2; subst hr2; simp
                · simpa using hle
                · simp [h4]
                · exact List.mem_append.mpr (Or.inl h5)
            · exact ⟨h1, h2, h3, h4, h5⟩

theorem browserHttpFallbackLoop_inv (env : BrowserCrawlEnv) (o : NormalizeOptions)
    (hostname : String) (maxPages : Nat) (base : String) :
    ∀ (urls : List String) (t : List CrawledPage × List String × CrawlStatistics),
      FallbackInv maxPages base t →
      FallbackInv maxPages base (browserHttpFallbackLoop env o hostname maxPages urls t) := by
  intro urls
  induction urls with
  | nil => exact fun t h => h
  | cons url rest ih =>
    intro t h
    obtain ⟨h1, h2, h3, h4, h5⟩ := h
    unfold browserHttpFallbackLoop
    split
    · exact ⟨h1, h2, h3, h4, h5⟩
    · rename_i hfull
      split
      · split
        · exact ih _ ⟨h1, h2, h3, h4, h5⟩
        · rename_i normalized hnorm
          split
          · exact ih _ ⟨h1, h2, h3, h4, h5⟩
          · rename_i hnv
            split
            · exact ih _ ⟨h1, h2, h3, h4, h5⟩
            · rename_i resp hresp
              split
              · apply ih
                have hcu2 : ∀ x ∈ t.1, ¬x.url = normalized :=
                  fun x hx hxe => hnv (hxe ▸ h2 x hx)
                refine ⟨?_, ?_, ?_, ?_, ?_⟩
                · simpa [resultUrls, List.nodup_append] using ⟨h1, hcu2⟩
                · intro r hr
                  rcases List.mem_append.mp hr with hr1 | hr2
                  · exact List.mem_append.mpr (Or.inl (h2 r hr1))
                  · simp at hr2; subst hr2; simp
                · have : t.1.length < maxPages := by omega
                  simpa using this
                · simp [h4]
                · exact List.mem_append.mpr (Or.inl h5)
              · exact ih _ ⟨h1, h2, h3, h4, h5⟩
      · exact ih _ ⟨h1, h2, h3, h4, h5⟩

theorem browserRootLastResort_of_visited (env : BrowserCrawlEnv) (base : String)
    (alive : Bool) (results : List CrawledPage) (visited : List String)
    (stats : CrawlStatistics) (h : base ∈ visited) :
    browserRootLastResort env base alive results visited stats = (results, stats) := by
  unfold browserRootLastResort
  split
  · rename_i hc
    exact absurd h hc.2
  · rfl



theorem browserSeedPhase_totalCrawled (env : BrowserCrawlEnv) (o : NormalizeOptions)
    (hostname : String) (maxPages : Nat) :
    (browserSeedPhase env o hostname maxPages).2.2.1.totalCrawled = 0 := by
  unfold browserSeedPhase
  cases env.discoveredSitemap with
  | none => simp
  | some smUrl =>
    cases hps : parseSitemap env.sitemap smUrl with
    | error msg => simp [hps]
    | ok sitemapUrls =>
      simp only [hps]
      split <;> simp

theorem browserFinishPhase_ok_facts (env : BrowserCrawlEnv) (o : NormalizeOptions)
    (hostname : String) (maxPages : Nat) (base : String) (sF : CrawlState)
    (hinv : BrowserInv maxPages base sF) (pages : List CrawledPage) (stats : CrawlStatistics)
    (h : browserFinishPhase env o hostname maxPages base sF = .ok (pages, stats)) :
    (resultUrls pages).Nodup ∧ pages.length ≤ maxPages ∧
      stats.totalCrawled = pages.length := by
  obtain ⟨g1, g2, g3, g4, g5⟩ := hinv
  unfold browserFinishPhase at h
  dsimp only at h
  split at h
  · rename_i hcondF
    have hempty : sF.results = [] := by
      simp only [Bool.and_eq_true, List.isEmpty_iff] at hcondF
      exact hcondF.1.1
    split at h
    · rw [Except.ok.injEq, Prod.mk.injEq] at h
      obtain ⟨hp, hs⟩ := h
      subst hp
      subst hs
      exact ⟨by simp [hempty, resultUrls], by simp [hempty], by simp [hempty, g4]⟩
    · rename_i sm hsm
      split at h
      · exact absurd h (by simp)
      · rename_i sitemapUrls hps
        have hfb := browserHttpFallbackLoop_inv env o hostname maxPages base
          (sitemapUrls.take maxPages)
          ([], sF.visited, { sF.stats with totalDiscovered := sF.visited.length })
          ⟨by simp [resultUrls], by simp, by simp, by simp [g4, hempty], g5⟩
        obtain ⟨f1, f2, f3, f4, f5⟩ := hfb
        rw [browserRootLastResort_of_visited _ _ _ _ _ _ f5] at h
        rw [Except.ok.injEq, Prod.mk.injEq] at h
        obtain ⟨hp, hs⟩ := h
        subst hp
        subst hs
        rw [hempty]
        split
        · exact ⟨by simpa [resultUrls] using f1, by simpa using f3, by simpa using f4⟩
        · rename_i hne
          simp only [ne_eq, not_not] at hne
          refine ⟨by simp [resultUrls], by simp, ?_⟩
          rw [f4, hne]
  · rw [browserRootLastResort_of_visited _ _ _ _ _ _ g5] at h
    rw [Except.ok.injEq, Prod.mk.injEq] at h
    obtain ⟨hp, hs⟩ := h
    subst hp
    subst hs
    exact ⟨g1, g3, g4⟩

theorem crawlWebsiteBrowser_ok_facts (env : BrowserCrawlEnv) (rootUrl : String)
    (options : CrawlOptions) (fuel : Nat) (pages : List CrawledPage) (stats : CrawlStatistics)
    (h : crawlWebsiteBrowser env rootUrl options fuel = .ok (pages, stats)) :
    (resultUrls pages).Nodup ∧ pages.length ≤ options.maxPages ∧
      stats.totalCrawled = pages.length := by
  unfold crawlWebsiteBrowser at h
  split at h
  · exact absurd h (by simp)
  · rename_i baseUrl hv
    dsimp only at h
    refine browserFinishPhase_ok_facts _ _ _ _ _ _ ?_ _ _ h
    apply browserDrainLoop_inv
    refine ⟨by simp [resultUrls], by simp, by simp, ?_, ?_⟩
    · simpa [resultUrls] using browserSeedPhase_totalCrawled env
        (crawlNormalizeOptions baseUrl) (String.mk (toLowerChars baseUrl.host)) options.maxPages
    · split
      · simp
      · rename_i hc
        simpa using hc

theorem sfFetchLoop_totalCrawled (env : SfCrawlEnv) (o : NormalizeOptions) :
    ∀ (urls : List String) (t : List String × List CrawledPage × CrawlStatistics),
      t.2.2.totalCrawled = t.2.1.length →
      (sfFetchLoop env o urls t).2.2.totalCrawled = (sfFetchLoop env o urls t).2.1.length := by
  intro urls
  induction urls with
  | nil => exact fun t h => h
  | cons url rest ih =>
    intro t h
    unfold sfFetchLoop
    split
    · exact ih _ (by simpa using h)
    · rename_i resp hresp
      split
      · split
        · split
          · exact ih _ (by simpa using h)
          · exact ih _ (by simpa using h)
        · exact ih _ (by simpa using h)
      · exact ih _ (by simpa using h)

theorem sfRootStep_totalCrawled (env : SfCrawlEnv) (o : NormalizeOptions) (base : String)
    (v : List String) (rs : List CrawledPage) (st : CrawlStatistics)
    (h : st.totalCrawled = rs.length) :
    (sfRootStep env o base v rs st).2.2.totalCrawled = (sfRootStep env o base v rs st).2.1.length := by
  unfold sfRootStep
  split
  · split
    · simpa using h
    · split
      · split
        · split
          · simpa using h
          · simpa using h
        · simpa using h
      · simpa using h
  · simpa using h

theorem crawlWebsiteSitemapFirst_ok_facts (env : SfCrawlEnv) (rootUrl : String)
    (options : CrawlOptions) (pages : List CrawledPage) (stats : CrawlStatistics)
    (h : crawlWebsiteSitemapFirst env rootUrl options = .ok (pages, stats)) :
    stats.totalCrawled = pages.length := by
  unfold crawlWebsiteSitemapFirst at h
  split at h
  · exact absurd h (by simp)
  · rename_i baseUrl hv
    dsimp only at h
    cases hd : env.discoveredSitemap with
    | none =>
      simp only [hd] at h
      rw [Except.ok.injEq, Prod.mk.injEq] at h
      obtain ⟨hp, hs⟩ := h
      subst hp
      subst hs
      simpa using sfRootStep_totalCrawled env _ _ _ _ _ (by simp)
    | some smUrl =>
      simp only [hd] at h
      cases hps : parseSitemap env.sitemap smUrl with
      | error msg =>
        simp only [hps] at h
        rw [Except.ok.injEq, Prod.mk.injEq] at h
        obtain ⟨hp, hs⟩ := h
        subst hp
        subst hs
        simpa using sfRootStep_totalCrawled env _ _ _ _ _ (by simp)
      | ok sitemapUrls =>
        simp only [hps] at h
        split at h
        · rw [Except.ok.injEq, Prod.mk.injEq] at h
          obtain ⟨hp, hs⟩ := h
          subst hp
          subst hs
          have hloop := sfFetchLoop_totalCrawled env
            (crawlNormalizeOptions baseUrl)
            ((sfFilterUrls (crawlNormalizeOptions baseUrl)
              (stripWww (toLowerChars baseUrl.host)) sitemapUrls []).take options.maxPages)
            ([], [], { (⟨false, none, 0, 0, 0, 0, []⟩ : CrawlStatistics) with
                sitemapFound := true, sitemapUrl := some smUrl,
                sitemapUrlCount := sitemapUrls.length }) (by simp)
          simpa using sfRootStep_totalCrawled env _ _ _ _ _ hloop
        · rw [Except.ok.injEq, Prod.mk.injEq] at h
          obtain ⟨hp, hs⟩ := h
          subst hp
          subst hs
          simpa using sfRootStep_totalCrawled env _ _ _ _ _ (by simp)

/-- C1: for every crawl run of either `crawlWebsite` in
`crawler-browser.ts` (the browser variant and the multi-source HTTP
variant), the returned pages list contains each canonical URL at most once:
no two entries of `pages` share the same url string, even when two distinct
queued URLs redirect to the same final destination (a page is appended only
together with marking its canonical final URL visited). -/
theorem c1_no_duplicate_canonical_urls :
    (∀ (env : HttpCrawlEnv) (rootUrl : String) (options : CrawlOptions) (fuel : Nat)
       (pages : List CrawledPage) (stats : CrawlStatistics),
       crawlWebsiteHttp env rootUrl options fuel = .ok (pages, stats) →
       (resultUrls pages).Nodup) ∧
    (∀ (env : BrowserCrawlEnv) (rootUrl : String) (options : CrawlOptions) (fuel : Nat)
       (pages : List CrawledPage) (stats : CrawlStatistics),
       crawlWebsiteBrowser env rootUrl options fuel = .ok (pages, stats) →
       (resultUrls pages).Nodup) := by
  constructor
  · intro env rootUrl options fuel pages stats h
    exact (crawlWebsiteHttp_ok_facts env rootUrl options fuel pages stats h).1
  · intro env rootUrl options fuel pages stats h
    exact (crawlWebsiteBrowser_ok_facts env rootUrl options fuel pages stats h).1

/-- Witness for C1: a concrete three-page crawl (root redirecting to
`/home`, which links `/a` and `/b`) returns pairwise distinct URLs. -/
theorem c1_no_duplicate_canonical_urls_witness :
    crawlWebsiteHttp redirectCrawlEnv "https://example.com" ⟨5, 5⟩ 50 =
      .ok ([⟨"https://example.com/home", "<html>root</html>", 200⟩,
            ⟨"https://example.com/a", "<html>leaf</html>", 200⟩,
            ⟨"https://example.com/b", "<html>leaf</html>", 200⟩],
           ⟨false, none, 0, 2, 4, 3, []⟩) ∧
    (resultUrls [⟨"https://example.com/home", "<html>root</html>", 200⟩,
                 ⟨"https://example.com/a", "<html>leaf</html>", 200⟩,
                 ⟨"https://example.com/b", "<html>leaf</html>", 200⟩]).Nodup :=
  ⟨by decide,
   c1_no_duplicate_canonical_urls.1 redirectCrawlEnv "https://example.com" ⟨5, 5⟩ 50
     [⟨"https://example.com/home", "<html>root</html>", 200⟩,
      ⟨"https://example.com/a", "<html>leaf</html>", 200⟩,
      ⟨"https://example.com/b", "<html>leaf</html>", 200⟩]
     ⟨false, none, 0, 2, 4, 3, []⟩ (by decide)⟩

/-- C4: for every crawl run of either `crawlWebsite` in
`crawler-browser.ts` with options specifying `maxPages`, the returned pages
list has length at most `maxPages`, on every execution path including the
HTTP fallback and the root last-resort paths. -/
theorem c4_max_pages_cap_respected :
    (∀ (env : HttpCrawlEnv) (rootUrl : String) (options : CrawlOptions) (fuel : Nat)
       (pages : List CrawledPage) (stats : CrawlStatistics),
       crawlWebsiteHttp env rootUrl options fuel = .ok (pages, stats) →
       pages.length ≤ options.maxPages) ∧
    (∀ (env : BrowserCrawlEnv) (rootUrl : String) (options : CrawlOptions) (fuel : Nat)
       (pages : List CrawledPage) (stats : CrawlStatistics),
       crawlWebsiteBrowser env rootUrl options fuel = .ok (pages, stats) →
       pages.length ≤ options.maxPages) := by
  constructor
  · intro env rootUrl options fuel pages stats h
    exact (crawlWebsiteHttp_ok_facts env rootUrl options fuel pages stats h).2.1
  · intro env rootUrl options fuel pages stats h
    exact (crawlWebsiteBrowser_ok_facts env rootUrl options fuel pages stats h).2.1

/-- Witness for C4: with `maxPages = 2` and three reachable pages, the HTTP
crawl returns exactly 2 pages; a browser crawl with every load failing
returns 0 pages. -/
theorem c4_max_pages_cap_respected_witness :
    (crawlWebsiteHttp redirectCrawlEnv "https://example.com" ⟨2, 5⟩ 50 =
      .ok ([⟨"https://example.com/home", "<html>root</html>", 200⟩,
            ⟨"https://example.com/a", "<html>leaf</html>", 200⟩],
           ⟨false, none, 0, 2, 3, 2, []⟩) ∧
     ([⟨"https://example.com/home", "<html>root</html>", 200⟩,
       ⟨"https://example.com/a", "<html>leaf</html>", 200⟩] : List CrawledPage).length ≤ 2) ∧
    (crawlWebsiteBrowser emptyResultBrowserEnv "https://example.com" ⟨2, 5⟩ 50 =
      .ok ([], ⟨false, none, 0, 0, 1, 0, ["Failed to load https://example.com/"]⟩) ∧
     ([] : List CrawledPage).length ≤ 2) :=
  ⟨⟨by decide,
    c4_max_pages_cap_respected.1 redirectCrawlEnv "https://example.com" ⟨2, 5⟩ 50
      [⟨"https://example.com/home", "<html>root</html>", 200⟩,
       ⟨"https://example.com/a", "<html>leaf</html>", 200⟩]
      ⟨false, none, 0, 2, 3, 2, []⟩ (by decide)⟩,
   ⟨by decide,
    c4_max_pages_cap_respected.2 emptyResultBrowserEnv "https://example.com" ⟨2, 5⟩ 50
      [] ⟨false, none, 0, 0, 1, 0, ["Failed to load https://example.com/"]⟩ (by decide)⟩⟩

/-- C10: in every `(pages, statistics)` pair returned by any
`crawlWebsite` variant (the browser variant, the multi-source HTTP variant,
and the sitemap-first variant of `src/unnamed/part_001`),
`statistics.totalCrawled` equals `pages.length`: the counter is incremented
exactly when a page is appended to the result list, on the main loops and
on every fallback path. -/
theorem c10_total_crawled_equals_page_count :
    (∀ (env : HttpCrawlEnv) (rootUrl : String) (options : CrawlOptions) (fuel : Nat)
       (pages : List CrawledPage) (stats : CrawlStatistics),
       crawlWebsiteHttp env rootUrl options fuel = .ok (pages, stats) →
       stats.totalCrawled = pages.length) ∧
    (∀ (env : BrowserCrawlEnv) (rootUrl : String) (options : CrawlOptions) (fuel : Nat)
       (pages : List CrawledPage) (stats : CrawlStatistics),
       crawlWebsiteBrowser env rootUrl options fuel = .ok (pages, stats) →
       stats.totalCrawled = pages.length) ∧
    (∀ (env : SfCrawlEnv) (rootUrl : String) (options : CrawlOptions)
       (pages : List CrawledPage) (stats : CrawlStatistics),
       crawlWebsiteSitemapFirst env rootUrl options = .ok (pages, stats) →
       stats.totalCrawled = pages.length) := by
  refine ⟨?_, ?_, ?_⟩
  · intro env rootUrl options fuel pages stats h
    exact (crawlWebsiteHttp_ok_facts env rootUrl options fuel pages stats h).2.2
  · intro env rootUrl options fuel pages stats h
    exact (crawlWebsiteBrowser_ok_facts env rootUrl options fuel pages stats h).2.2
  · intro env rootUrl options pages stats h
    exact crawlWebsiteSitemapFirst_ok_facts env rootUrl options pages stats h

/-- Witness for C10: concrete runs of all three variants, with 3, 0 and 2
pages respectively, matching their `totalCrawled` counters. -/
theorem c10_total_crawled_equals_page_count_witness :
    (crawlWebsiteHttp redirectCrawlEnv "https://example.com" ⟨5, 5⟩ 50 =
      .ok ([⟨"https://example.com/home", "<html>root</html>", 200⟩,
            ⟨"https://example.com/a", "<html>leaf</html>", 200⟩,
            ⟨"https://example.com/b", "<html>leaf</html>", 200⟩],
           ⟨false, none, 0, 2, 4, 3, []⟩) ∧
     (⟨false, none, 0, 2, 4, 3, []⟩ : CrawlStatistics).totalCrawled = 3) ∧
    (crawlWebsiteBrowser emptyResultBrowserEnv "https://example.com" ⟨3, 5⟩ 50 =
      .ok ([], ⟨false, none, 0, 0, 1, 0, ["Failed to load https://example.com/"]⟩) ∧
     (⟨false, none, 0, 0, 1, 0, ["Failed to load https://example.com/"]⟩ :
        CrawlStatistics).totalCrawled = 0) ∧
    (crawlWebsiteSitemapFirst sfExampleEnv "https://example.com" ⟨5, 5⟩ =
      .ok ([⟨"https://example.com/", "<html>y</html>", 200⟩,
            ⟨"https://example.com/a", "<html>y</html>", 200⟩],
           ⟨true, some "https://example.com/sitemap.xml", 1, 0, 2, 2, []⟩) ∧
     (⟨true, some "https://example.com/sitemap.xml", 1, 0, 2, 2, []⟩ :
        CrawlStatistics).totalCrawled = 2) :=
  ⟨⟨by decide,
    c10_total_crawled_equals_page_count.1 redirectCrawlEnv "https://example.com" ⟨5, 5⟩ 50
      [⟨"https://example.com/home", "<html>root</html>", 200⟩,
       ⟨"https://example.com/a", "<html>leaf</html>", 200⟩,
       ⟨"https://example.com/b", "<html>leaf</html>", 200⟩]
      ⟨false, none, 0, 2, 4, 3, []⟩ (by decide)⟩,
   ⟨by decide,
    c10_total_crawled_equals_page_count.2.1 emptyResultBrowserEnv "https://example.com" ⟨3, 5⟩ 50
      [] ⟨false, none, 0, 0, 1, 0, ["Failed to load https://example.com/"]⟩ (by decide)⟩,
   ⟨by decide,
    c10_total_crawled_equals_page_count.2.2 sfExampleEnv "https://example.com" ⟨5, 5⟩
      [⟨"https://example.com/", "<html>y</html>", 200⟩,
       ⟨"https://example.com/a", "<html>y</html>", 200⟩]
      ⟨true, some "https://example.com/sitemap.xml", 1, 0, 2, 2, []⟩ (by decide)⟩⟩

/-- C2 counterexample: canonicalizing
`https://example.com/a/index.html/index.html` against base
`https://example.com` yields `https://example.com/a/index.html`, whose own
canonicalization is `https://example.com/a` — a different string — so
`canonicalizeUrl` is not idempotent on every non-null input. -/
theorem c2_counterexample_stacked_index :
    canonicalizeUrl "https://example.com/a/index.html/index.html" exampleComOptions =
      some "https://example.com/a/index.html" ∧
    canonicalizeUrl "https://example.com/a/index.html" exampleComOptions =
      some "https://example.com/a" ∧
    ("https://example.com/a" : String) ≠ "https://example.com/a/index.html" :=
  ⟨by decide, by decide, by decide⟩

/-- Witness for the amended C2 theorem at a concrete input. -/
theorem c2_canonicalize_idempotent_amended_witness :
    validBase exampleComOptions.baseUrl = true ∧
    canonicalizeUrl "https://example.com/a/" exampleComOptions =
      some "https://example.com/a" ∧
    hasStackedIndexSuffix "https://example.com/a" = false ∧
    canonicalizeUrl "https://example.com/a" exampleComOptions =
      some "https://example.com/a" :=
  ⟨by decide, by decide, by decide,
   c2_canonicalize_idempotent_amended "https://example.com/a/" "https://example.com/a"
     exampleComOptions (by decide) (by decide) (by decide)⟩

/-- C8 (amended): the safety predicate `isSafeUrl` rejects the private and
loopback hosts `169.254.169.254`, `localhost` and `10.0.0.5` whatever the
other URL components are; and `shouldCrawlUrl` — which performs no private-IP
check of its own — rejects `http://169.254.169.254/`, `http://localhost/admin`
and `http://10.0.0.5/` for every site hostname and options (with a well-formed
base URL) whose hostname, ignoring a leading `www.`, differs from the target's
host.  (The universal form of the claim over all site hosts is refuted by
`c8_counterexample_self_host_crawlable`.) -/
theorem c8_private_targets_blocked_amended :
    (∀ u : UrlObj, u.host = "169.254.169.254".toList ∨ u.host = "localhost".toList ∨
      u.host = "10.0.0.5".toList → isSafeUrl u = false) ∧
    (∀ (base : String) (o : NormalizeOptions), validBase o.baseUrl = true →
      (stripWww (toLowerChars base.toList) ≠ "169.254.169.254".toList →
        shouldCrawlUrl "http://169.254.169.254/" base o = false) ∧
      (stripWww (toLowerChars base.toList) ≠ "localhost".toList →
        shouldCrawlUrl "http://localhost/admin" base o = false) ∧
      (stripWww (toLowerChars base.toList) ≠ "10.0.0.5".toList →
        shouldCrawlUrl "http://10.0.0.5/" base o = false)) := by
  refine ⟨isSafeUrl_private_hosts, ?_⟩
  intro base o hb
  refine ⟨?_, ?_, ?_⟩
  · intro hdiff
    exact shouldCrawlUrl_diff_host _ base o
      ⟨false, "169.254.169.254".toList, none, "/".toList, []⟩ hb rfl (by decide)
      (by decide) (by decide) rfl (fun p hp => by simp at hp) (by decide) (by decide) hdiff
  · intro hdiff
    exact shouldCrawlUrl_diff_host _ base o
      ⟨false, "localhost".toList, none, "/admin".toList, []⟩ hb rfl (by decide)
      (by decide) (by decide) rfl (fun p hp => by simp at hp) (by decide) (by decide) hdiff
  · intro hdiff
    exact shouldCrawlUrl_diff_host _ base o
      ⟨false, "10.0.0.5".toList, none, "/".toList, []⟩ hb rfl (by decide)
      (by decide) (by decide) rfl (fun p hp => by simp at hp) (by decide) (by decide) hdiff

/-- Witness for the amended C8 theorem at concrete inputs. -/
theorem c8_private_targets_blocked_amended_witness :
    isSafeUrl ⟨true, "10.0.0.5".toList, some 8080, "/x".toList, []⟩ = false ∧
    validBase exampleComOptions.baseUrl = true ∧
    stripWww (toLowerChars ("example.com" : String).toList) ≠ "169.254.169.254".toList ∧
    shouldCrawlUrl "http://169.254.169.254/" "example.com" exampleComOptions = false :=
  ⟨c8_private_targets_blocked_amended.1 ⟨true, "10.0.0.5".toList, some 8080, "/x".toList, []⟩
     (Or.inr (Or.inr (by decide))),
   by decide, by decide,
   (c8_private_targets_blocked_amended.2 "example.com" exampleComOptions (by decide)).1
     (by decide)⟩
